import Mathlib

/-!
# lokstra_cli: service URI validation, lint scan, template resolution and rendering

A shallow embedding of `internal/uri/validator.go`, `internal/lint/service_uri_checker.go`
and the template functions of `cmd/init.go`, together with the parts of the Go standard
library they call (`strings`, `unicode`, `net/url`, `regexp`, `path/filepath`, `os`).

Go strings are byte sequences; a byte is a natural number below 256.
-/

namespace Lokstra

/-- A Go `string`: a sequence of bytes. -/
abbrev GoString := List Nat

deriving instance DecidableEq for Except

/-- UTF-8 encoding of one code point (how the Go compiler stores a rune of a literal). -/
def encodeRune (r : Nat) : GoString :=
  if r < 0x80 then [r]
  else if r < 0x800 then [0xC0 + r / 64, 0x80 + r % 64]
  else if r < 0x10000 then [0xE0 + r / 4096, 0x80 + r / 64 % 64, 0x80 + r % 64]
  else [0xF0 + r / 262144, 0x80 + r / 4096 % 64, 0x80 + r / 64 % 64, 0x80 + r % 64]

/-- The bytes of a Go string literal (source text is UTF-8). -/
def utf8 (s : String) : GoString :=
  s.toList.flatMap fun c => encodeRune c.toNat

/-! ## package strings -/

namespace strings

/-- `strings.HasPrefix`. -/
def HasPrefix (s pre : GoString) : Bool := pre.isPrefixOf s

/-- `strings.HasSuffix`. -/
def HasSuffix (s suf : GoString) : Bool := suf.isSuffixOf s

/-- `strings.Index`: position of the first occurrence of `sep` in `s`; `none` is Go's -1. -/
def Index : GoString → GoString → Option Nat
  | [], sep => if sep = [] then some 0 else none
  | b :: bs, sep =>
    if sep.isPrefixOf (b :: bs) then some 0 else (Index bs sep).map (· + 1)

/-- `strings.LastIndex` for a one-byte separator; `none` is Go's -1. -/
def LastIndexByte (s : GoString) (c : Nat) : Option Nat :=
  match Index s.reverse [c] with
  | none => none
  | some i => some (s.length - 1 - i)

/-- `strings.Contains`. -/
def Contains (s sub : GoString) : Bool := (Index s sub).isSome

/-- `strings.Count` for a one-byte separator. -/
def CountByte (s : GoString) (c : Nat) : Nat := s.count c

/-- `strings.Cut` for a one-byte separator: `(before, after, found)`. -/
def Cut (s : GoString) (c : Nat) : GoString × GoString × Bool :=
  match Index s [c] with
  | some i => (s.take i, s.drop (i + 1), true)
  | none => (s, [], false)

/-- `strings.Trim(s, cutset)` for a cutset of one ASCII byte. -/
def Trim (s : GoString) (c : Nat) : GoString :=
  ((s.dropWhile (· == c)).reverse.dropWhile (· == c)).reverse

/-- `strings.Split(s, sep)` for a one-byte separator; `Split "" sep` is `[""]`. -/
def Split : GoString → Nat → List GoString
  | [], _ => [[]]
  | b :: bs, c =>
    if b = c then [] :: Split bs c
    else
      match Split bs c with
      | [] => [[b]]
      | h :: t => (b :: h) :: t

/-- `strings.ToLower` on bytes: `A`..`Z` become `a`..`z`. The only caller passes a URL
scheme, which consists of ASCII letters, digits, `+`, `-` and `.`. -/
def ToLower (s : GoString) : GoString :=
  s.map fun c => if 65 ≤ c ∧ c ≤ 90 then c + 32 else c

end strings

/-! ## package unicode -/

namespace unicode

/-- `unicode.IsUpper(rune(b))` for a byte `b`: the rune is at most `MaxLatin1`, so the
Latin-1 property table decides; its upper-case letters are `A`..`Z`, `À`..`Ö`, `Ø`..`Þ`. -/
def IsUpper (b : Nat) : Bool :=
  (65 ≤ b && b ≤ 90) || (0xC0 ≤ b && b ≤ 0xD6) || (0xD8 ≤ b && b ≤ 0xDE)

end unicode

/-! ## package net/url (Go 1.24) -/

namespace url

/-- The escaping contexts of `net/url`. -/
inductive encoding
  | encodePath
  | encodePathSegment
  | encodeHost
  | encodeZone
  | encodeUserPassword
  | encodeQueryComponent
  | encodeFragment
  deriving DecidableEq, Repr

/-- The error values that `parse` produces below `url.Error`. -/
inductive ParseErr
  /-- `errors.New(text)`. -/
  | text (msg : GoString)
  /-- `EscapeError(s)`: "invalid URL escape " followed by the quoted `s`. -/
  | EscapeError (s : GoString)
  /-- `InvalidHostError(s)`: "invalid character " quoted `s` " in host name". -/
  | InvalidHostError (s : GoString)
  /-- `fmt.Errorf("invalid port %q after host", colonPort)`. -/
  | invalidPort (colonPort : GoString)
  deriving DecidableEq, Repr

/-- `url.Error`: operation, URL and cause. -/
structure Error where
  Op : GoString
  URL : GoString
  Err : ParseErr
  deriving DecidableEq, Repr

/-- `url.Userinfo`. -/
structure Userinfo where
  username : GoString
  password : GoString
  passwordSet : Bool
  deriving DecidableEq, Repr

/-- `url.URL`, without the two encoding hints `RawPath` and `RawFragment` (they are
computed after every check has passed and nothing in this program reads them). -/
structure URL where
  Scheme : GoString := []
  Opaque : GoString := []
  User : Option Userinfo := none
  Host : GoString := []
  Path : GoString := []
  OmitHost : Bool := false
  ForceQuery : Bool := false
  RawQuery : GoString := []
  Fragment : GoString := []
  deriving DecidableEq, Repr

/-- ASCII letter or digit. -/
def isAlnum (c : Nat) : Bool :=
  (97 ≤ c && c ≤ 122) || (65 ≤ c && c ≤ 90) || (48 ≤ c && c ≤ 57)

/-- `ishex`. -/
def ishex (c : Nat) : Bool :=
  (48 ≤ c && c ≤ 57) || (97 ≤ c && c ≤ 102) || (65 ≤ c && c ≤ 70)

/-- `unhex`. -/
def unhex (c : Nat) : Nat :=
  if 48 ≤ c ∧ c ≤ 57 then c - 48
  else if 97 ≤ c ∧ c ≤ 102 then c - 97 + 10
  else if 65 ≤ c ∧ c ≤ 70 then c - 65 + 10
  else 0

/-- The bytes a host may hold besides the unreserved ones:
`! $ & ' ( ) * + , ; = : [ ] < > "`. -/
def hostExtra : List Nat :=
  [33, 36, 38, 39, 40, 41, 42, 43, 44, 59, 61, 58, 91, 93, 60, 62, 34]

/-- `shouldEscape`. -/
def shouldEscape (c : Nat) (mode : encoding) : Bool :=
  if isAlnum c then false
  else if (mode = .encodeHost ∨ mode = .encodeZone) ∧ c ∈ hostExtra then false
  -- '-', '_', '.', '~'
  else if c ∈ [45, 95, 46, 126] then false
  -- '$', '&', '+', ',', '/', ':', ';', '=', '?', '@'
  else if c ∈ [36, 38, 43, 44, 47, 58, 59, 61, 63, 64] then
    match mode with
    | .encodePath => c == 63
    | .encodePathSegment => c == 47 || c == 59 || c == 44 || c == 63
    | .encodeUserPassword => c == 64 || c == 47 || c == 63 || c == 58
    | .encodeQueryComponent => true
    | .encodeFragment => false
    | _ => true
  -- '!', '(', ')', '*'
  else if mode = .encodeFragment ∧ c ∈ [33, 40, 41, 42] then false
  else true

/-- First loop of `unescape`: the first malformed escape or forbidden host byte, or
else the number of `%` escapes and whether a `+` has to be decoded. -/
def unescapeCheck (mode : encoding) : GoString → Except ParseErr (Nat × Bool)
  | [] => .ok (0, false)
  | c :: rest =>
    if c = 37 then
      match rest with
      | h1 :: h2 :: rest2 =>
        if !ishex h1 || !ishex h2 then .error (.EscapeError [c, h1, h2])
        else if mode = .encodeHost ∧ unhex h1 < 8 ∧ [c, h1, h2] ≠ [37, 50, 53] then
          .error (.EscapeError [c, h1, h2])
        else if mode = .encodeZone ∧ [c, h1, h2] ≠ [37, 50, 53]
            ∧ ((unhex h1 * 16 % 256) ||| unhex h2) ≠ 32
            ∧ shouldEscape ((unhex h1 * 16 % 256) ||| unhex h2) .encodeHost then
          .error (.EscapeError [c, h1, h2])
        else
          match unescapeCheck mode rest2 with
          | .error e => .error e
          | .ok (n, hasPlus) => .ok (n + 1, hasPlus)
      | _ => .error (.EscapeError (c :: rest))
    else if c = 43 then
      match unescapeCheck mode rest with
      | .error e => .error e
      | .ok (n, _) => .ok (n, decide (mode = .encodeQueryComponent))
    else if (mode = .encodeHost ∨ mode = .encodeZone) ∧ c < 0x80
        ∧ shouldEscape c .encodeHost then
      .error (.InvalidHostError [c])
    else unescapeCheck mode rest

/-- Second loop of `unescape`: decode the escapes. -/
def unescapeDecode (mode : encoding) : GoString → GoString
  | [] => []
  | c :: rest =>
    if c = 37 then
      match rest with
      | h1 :: h2 :: rest2 => ((unhex h1 * 16 % 256) ||| unhex h2) :: unescapeDecode mode rest2
      | _ => [c]
    else if c = 43 then
      (if mode = .encodeQueryComponent then 32 else 43) :: unescapeDecode mode rest
    else c :: unescapeDecode mode rest

/-- `unescape`. -/
def unescape (s : GoString) (mode : encoding) : Except ParseErr GoString :=
  match unescapeCheck mode s with
  | .error e => .error e
  | .ok (n, hasPlus) =>
    if n = 0 ∧ hasPlus = false then .ok s else .ok (unescapeDecode mode s)

/-- `stringContainsCTLByte`. -/
def stringContainsCTLByte (s : GoString) : Bool :=
  s.any fun b => b < 32 || b == 0x7f

/-- The loop of `getScheme`, at index `i` with `rest = rawURL[i:]`. -/
def getSchemeLoop (rawURL : GoString) : Nat → GoString → Except ParseErr (GoString × GoString)
  | _, [] => .ok ([], rawURL)
  | i, c :: cs =>
    if (97 ≤ c ∧ c ≤ 122) ∨ (65 ≤ c ∧ c ≤ 90) then getSchemeLoop rawURL (i + 1) cs
    else if (48 ≤ c ∧ c ≤ 57) ∨ c = 43 ∨ c = 45 ∨ c = 46 then
      if i = 0 then .ok ([], rawURL) else getSchemeLoop rawURL (i + 1) cs
    else if c = 58 then
      if i = 0 then .error (.text (utf8 "missing protocol scheme"))
      else .ok (rawURL.take i, rawURL.drop (i + 1))
    else .ok ([], rawURL)

/-- `getScheme`: `(scheme, path)`. -/
def getScheme (rawURL : GoString) : Except ParseErr (GoString × GoString) :=
  getSchemeLoop rawURL 0 rawURL

/-- `validOptionalPort`. -/
def validOptionalPort (port : GoString) : Bool :=
  match port with
  | [] => true
  | c :: ds => c == 58 && ds.all fun b => 48 ≤ b && b ≤ 57

/-- `validUserinfo`. The Go loop ranges over runes; every rune outside ASCII (and the
replacement rune of a malformed byte) is refused, so the test is bytewise. -/
def validUserinfo (s : GoString) : Bool :=
  s.all fun r =>
    isAlnum r ||
    -- '-', '.', '_', ':', '~', '!', '$', '&', '\'', '(', ')', '*', '+', ',', ';', '=', '%', '@'
    [45, 46, 95, 58, 126, 33, 36, 38, 39, 40, 41, 42, 43, 44, 59, 61, 37, 64].contains r

/-- `parseHost`. -/
def parseHost (host : GoString) : Except ParseErr GoString :=
  let plain : Except ParseErr GoString := unescape host .encodeHost
  if strings.HasPrefix host [91] then
    match strings.LastIndexByte host 93 with
    | none => .error (.text (utf8 "missing ']' in host"))
    | some i =>
      let colonPort := host.drop (i + 1)
      if !validOptionalPort colonPort then .error (.invalidPort colonPort)
      else
        match strings.Index (host.take i) [37, 50, 53] with
        | some zone =>
          match unescape (host.take zone) .encodeHost with
          | .error e => .error e
          | .ok host1 =>
            match unescape ((host.take i).drop zone) .encodeZone with
            | .error e => .error e
            | .ok host2 =>
              match unescape (host.drop i) .encodeHost with
              | .error e => .error e
              | .ok host3 => .ok (host1 ++ host2 ++ host3)
        | none => plain
  else
    match strings.LastIndexByte host 58 with
    | some i =>
      let colonPort := host.drop i
      if !validOptionalPort colonPort then .error (.invalidPort colonPort) else plain
    | none => plain

/-- `parseAuthority`: `(user, host)`. -/
def parseAuthority (authority : GoString) : Except ParseErr (Option Userinfo × GoString) :=
  match strings.LastIndexByte authority 64 with
  | none =>
    match parseHost authority with
    | .error e => .error e
    | .ok host => .ok (none, host)
  | some i =>
    match parseHost (authority.drop (i + 1)) with
    | .error e => .error e
    | .ok host =>
      let userinfo := authority.take i
      if !validUserinfo userinfo then .error (.text (utf8 "net/url: invalid userinfo"))
      else if !strings.Contains userinfo [58] then
        match unescape userinfo .encodeUserPassword with
        | .error e => .error e
        | .ok name => .ok (some ⟨name, [], false⟩, host)
      else
        let (username, password, _) := strings.Cut userinfo 58
        match unescape username .encodeUserPassword with
        | .error e => .error e
        | .ok name =>
          match unescape password .encodeUserPassword with
          | .error e => .error e
          | .ok pass => .ok (some ⟨name, pass, true⟩, host)

/-- `(*URL).setPath`. -/
def setPath (u : URL) (p : GoString) : Except ParseErr URL :=
  match unescape p .encodePath with
  | .error e => .error e
  | .ok path => .ok { u with Path := path }

/-- `(*URL).setFragment`. -/
def setFragment (u : URL) (f : GoString) : Except ParseErr URL :=
  match unescape f .encodeFragment with
  | .error e => .error e
  | .ok frag => .ok { u with Fragment := frag }

/-- `parse`: the URL without its fragment. -/
def parse (rawURL : GoString) (viaRequest : Bool) : Except ParseErr URL :=
  if stringContainsCTLByte rawURL then
    .error (.text (utf8 "net/url: invalid control character in URL"))
  else if rawURL = [] ∧ viaRequest then .error (.text (utf8 "empty url"))
  else if rawURL = [42] then .ok { Path := [42] }
  else
    match getScheme rawURL with
    | .error e => .error e
    | .ok (scheme, rest0) =>
      let u0 : URL := { Scheme := strings.ToLower scheme }
      let (u1, rest) : URL × GoString :=
        if strings.HasSuffix rest0 [63] ∧ strings.CountByte rest0 63 = 1 then
          ({ u0 with ForceQuery := true }, rest0.take (rest0.length - 1))
        else
          ({ u0 with RawQuery := (strings.Cut rest0 63).2.1 }, (strings.Cut rest0 63).1)
      if !strings.HasPrefix rest [47] ∧ u1.Scheme ≠ [] then
        .ok { u1 with Opaque := rest }
      else if !strings.HasPrefix rest [47] ∧ viaRequest then
        .error (.text (utf8 "invalid URI for request"))
      else if !strings.HasPrefix rest [47]
          ∧ strings.Contains (strings.Cut rest 47).1 [58] then
        .error (.text (utf8 "first path segment in URL cannot contain colon"))
      else if (u1.Scheme ≠ [] ∨ (!viaRequest ∧ !strings.HasPrefix rest [47, 47, 47]))
          ∧ strings.HasPrefix rest [47, 47] then
        let authority0 := rest.drop 2
        let (authority, rest2) : GoString × GoString :=
          match strings.Index authority0 [47] with
          | some i => (authority0.take i, authority0.drop i)
          | none => (authority0, [])
        match parseAuthority authority with
        | .error e => .error e
        | .ok (user, host) => setPath { u1 with User := user, Host := host } rest2
      else if u1.Scheme ≠ [] ∧ strings.HasPrefix rest [47] then
        setPath { u1 with OmitHost := true } rest
      else setPath u1 rest

/-- `url.Parse`. -/
def Parse (rawURL : GoString) : Except Error URL :=
  let (u, frag, _) := strings.Cut rawURL 35
  match parse u false with
  | .error err => .error ⟨utf8 "parse", u, err⟩
  | .ok url =>
    if frag = [] then .ok url
    else
      match setFragment url frag with
      | .error err => .error ⟨utf8 "parse", rawURL, err⟩
      | .ok url2 => .ok url2

end url

/-! ## internal/uri/validator.go -/

/-- The `error` values `ValidateServiceURI` returns, one constructor per `fmt.Errorf`. -/
inductive ServiceURIError
  /-- `fmt.Errorf("invalid URI: %w", err)`. -/
  | invalidURI (err : url.Error)
  /-- `fmt.Errorf("invalid scheme: %s", u.Scheme)`. -/
  | invalidScheme (scheme : GoString)
  /-- `fmt.Errorf("missing serviceType (interface)")`. -/
  | missingServiceType
  /-- `fmt.Errorf("missing service instance name")`. -/
  | missingInstanceName
  /-- `fmt.Errorf("invalid serviceType format: %s", u.Host)`. -/
  | invalidServiceTypeFormat (host : GoString)
  /-- `fmt.Errorf("interface name must be CamelCase: %s", iface)`. -/
  | notCamelCase (iface : GoString)
  deriving DecidableEq, Repr

/-- `isCamelCase`. -/
def isCamelCase (s : GoString) : Bool :=
  match s with
  | [] => false
  | b :: _ =>
    if !unicode.IsUpper b then false
    else !strings.Contains s [95]

/-- `ValidateServiceURI`; `none` is the `nil` error. -/
def ValidateServiceURI (uri : GoString) : Option ServiceURIError :=
  match url.Parse uri with
  | .error err => some (.invalidURI err)
  | .ok u =>
    if u.Scheme ≠ utf8 "lokstra" then some (.invalidScheme u.Scheme)
    else if u.Host = [] then some .missingServiceType
    else
      let inst := strings.Trim u.Path 47
      if inst = [] then some .missingInstanceName
      else
        match strings.Split u.Host 46 with
        | [a] => if !isCamelCase a then some (.notCamelCase a) else none
        | [_, b] => if !isCamelCase b then some (.notCamelCase b) else none
        | _ => some (.invalidServiceTypeFormat u.Host)


/-! ## Error texts -/

/-- `Error()` of the causes below `url.Error`; `quote` is `strconv.Quote`. -/
def url.ParseErr.Error (quote : GoString → GoString) : url.ParseErr → GoString
  | .text msg => msg
  | .EscapeError s => utf8 "invalid URL escape " ++ quote s
  | .InvalidHostError s => utf8 "invalid character " ++ quote s ++ utf8 " in host name"
  | .invalidPort colonPort => utf8 "invalid port " ++ quote colonPort ++ utf8 " after host"

set_option linter.dupNamespace false in
/-- `(*url.Error).Error`: `fmt.Sprintf("%s %q: %s", e.Op, e.URL, e.Err)`. -/
def url.Error.Error (quote : GoString → GoString) (e : url.Error) : GoString :=
  e.Op ++ [32] ++ quote e.URL ++ utf8 ": " ++ e.Err.Error quote

/-- `Error()` of the value `ValidateServiceURI` returns. -/
def ServiceURIError.Error (quote : GoString → GoString) : ServiceURIError → GoString
  | .invalidURI err => utf8 "invalid URI: " ++ err.Error quote
  | .invalidScheme scheme => utf8 "invalid scheme: " ++ scheme
  | .missingServiceType => utf8 "missing serviceType (interface)"
  | .missingInstanceName => utf8 "missing service instance name"
  | .invalidServiceTypeFormat host => utf8 "invalid serviceType format: " ++ host
  | .notCamelCase iface => utf8 "interface name must be CamelCase: " ++ iface

/-! ## package regexp, for the one pattern of the lint scan -/

namespace regexp

/-- The class `[^\s"']`: every byte but tab, line feed, form feed, carriage return,
space, double quote and apostrophe. A rune of several bytes and a malformed byte (read
as U+FFFD) are in the class and consist of bytes at or above 0x80, so matching the
class rune by rune and byte by byte consume the same text. -/
def isTokenByte (b : Nat) : Bool :=
  !(b == 9 || b == 10 || b == 12 || b == 13 || b == 32 || b == 34 || b == 39)

/-- The pattern can match at the start of `s`: the literal `lokstra://`, then at least one
byte of the class. -/
def matchesAt (s : GoString) : Bool :=
  (utf8 "lokstra://").isPrefixOf s &&
    match s.drop 10 with
    | [] => false
    | b :: _ => isTokenByte b

/-- The leftmost-first search. `cur` is the match being extended (the greedy `+` takes
every byte of the class, the bytes of the literal among them); with no match open the
search tries the next position. -/
def scan : Option GoString → GoString → List GoString
  | none, [] => []
  | some tok, [] => [tok]
  | some tok, b :: bs =>
    if isTokenByte b then scan (some (tok ++ [b])) bs else tok :: scan none bs
  | none, b :: bs =>
    if matchesAt (b :: bs) then scan (some [b]) bs else scan none bs

/-- `serviceURIPattern.FindAllString(s, -1)`: the successive non-overlapping matches. -/
def FindAllString (s : GoString) : List GoString := scan none s

end regexp

/-! ## internal/lint/service_uri_checker.go -/

/-- `fmt.Sprintf("❌ %s: %s", filePath, err.Error())`. -/
def issueText (quote : GoString → GoString) (filePath : GoString) (err : ServiceURIError) :
    GoString :=
  utf8 "❌ " ++ filePath ++ utf8 ": " ++ err.Error quote

/-- `CheckServiceURIFormat`: the loop over the matches, appending one issue per failure. -/
def CheckServiceURIFormat (quote : GoString → GoString) (filePath content : GoString) :
    List GoString :=
  (regexp.FindAllString content).foldl
    (fun issues m =>
      match ValidateServiceURI m with
      | some err => issues ++ [issueText quote filePath err]
      | none => issues)
    []

/-! ## package path/filepath (Unix) and the part of package os the resolver observes -/

namespace filepath

/-- Whether the last element written can be removed by a `..` (Go: `out.w > dotdot`). -/
def canBacktrack (out : List GoString) : Bool :=
  match out.getLast? with
  | some l => l ≠ [46, 46]
  | none => false

/-- One path element of the loop of `Clean`; `out` holds the elements written so far. -/
def cleanStep (rooted : Bool) (out : List GoString) (e : GoString) : List GoString :=
  if e = [] ∨ e = [46] then out
  else if e = [46, 46] then
    if canBacktrack out then out.dropLast
    else if !rooted then out ++ [e]
    else out
  else out ++ [e]

/-- `filepath.Clean`, element by element instead of byte by byte. -/
def Clean (path : GoString) : GoString :=
  if path = [] then [46]
  else
    let rooted := strings.HasPrefix path [47]
    let out := (strings.Split path 47).foldl (cleanStep rooted) []
    let s := (if rooted then [47] else []) ++ [47].intercalate out
    if s = [] then [46] else s

/-- `filepath.Join`: leading empty elements are skipped, the others joined by `/` and
cleaned. -/
def Join : List GoString → GoString
  | [] => []
  | e :: es => if e = [] then Join es else Clean ([47].intercalate (e :: es))

/-- `filepath.IsAbs`. -/
def IsAbs (path : GoString) : Bool := strings.HasPrefix path [47]

end filepath

/-- What `resolveTemplatePath` observes of the process and the file system. -/
structure World where
  /-- `os.Stat(p)` returns no error and `IsDir()` holds. -/
  isDir : GoString → Bool
  /-- `os.Getenv("LOKSTRA_TEMPLATE")`, empty when unset. -/
  LOKSTRA_TEMPLATE : GoString
  /-- `os.Getwd()`: the working directory, or the text of its error. -/
  Getwd : Except GoString GoString

/-- `filepath.Abs`: `(path, err)`. -/
def filepath.Abs (w : World) (path : GoString) : GoString × Option GoString :=
  if filepath.IsAbs path then (filepath.Clean path, none)
  else
    match w.Getwd with
    | .error e => ([], some e)
    | .ok wd => (filepath.Join [wd, path], none)

/-! ## cmd/init.go -/

/-- The text of the error of `resolveTemplatePath`. -/
def notFoundText (template : GoString) : GoString :=
  utf8 "template '" ++ template ++ utf8 "' not found (searched: direct path and ./scaffold/"
    ++ template ++ utf8 "/)"

/-- `resolveTemplatePath`: `(path, err)`, `none` being the `nil` error. -/
def resolveTemplatePath (w : World) (template : GoString) : GoString × Option GoString :=
  let template :=
    if template = [] then
      if w.LOKSTRA_TEMPLATE ≠ [] then w.LOKSTRA_TEMPLATE else utf8 "default"
    else template
  if w.isDir template then filepath.Abs w template
  else
    let builtin := filepath.Join [utf8 "scaffold", template]
    if w.isDir builtin then (builtin, none)
    else ([], some (notFoundText template))

/-- `TemplateContext`. -/
structure TemplateContext where
  AppName : GoString
  ModuleName : GoString
  deriving DecidableEq, Repr

/-- An entry of the file system. -/
inductive Node
  /-- A directory. -/
  | dir
  /-- A regular file and its bytes. -/
  | file (data : GoString)
  deriving DecidableEq, Repr

/-- A file system without links: the working directory, and the directories and regular
files by their cleaned absolute path. Two spellings of a path (relative and absolute, with
or without `.` and `..`) name the same entry. -/
structure FS where
  /-- The working directory, an absolute path. -/
  wd : GoString
  /-- The entries, each under its cleaned absolute path; the first entry of a path counts. -/
  nodes : List (GoString × Node)
  deriving DecidableEq, Repr

/-- The cleaned absolute path that `p` names in the working directory `wd`. -/
def absIn (wd p : GoString) : GoString :=
  if filepath.IsAbs p then filepath.Clean p else filepath.Join [wd, p]

/-- The entry at a cleaned absolute path. -/
def FS.entry (fs : FS) (a : GoString) : Option Node := fs.nodes.lookup a

/-- The bytes of the regular file at a cleaned absolute path, if there is one. -/
def FS.fileAt (fs : FS) (a : GoString) : Option GoString :=
  match fs.entry a with
  | some (.file data) => some data
  | _ => none

/-- `os.Stat(p)`: the entry the path `p` names; the empty path names nothing. -/
def FS.stat (fs : FS) (p : GoString) : Option Node :=
  if p = [] then none else fs.entry (absIn fs.wd p)

/-- The bytes of the regular file the path `p` names, if it names one. -/
def FS.read (fs : FS) (p : GoString) : Option GoString :=
  if p = [] then none else fs.fileAt (absIn fs.wd p)

/-- Put an entry at a cleaned absolute path, in place of what was there. -/
def FS.set (fs : FS) (a : GoString) (n : Node) : FS :=
  { fs with nodes := (a, n) :: fs.nodes.filter fun e => e.1 ≠ a }

/-- Why rendering one file stops. -/
inductive RenderError
  /-- No such file or directory. -/
  | notExist (path : GoString)
  /-- Is a directory. -/
  | isDir (path : GoString)
  /-- Not a directory. -/
  | notDir (path : GoString)
  /-- An error of `Parse` or `Execute` of text/template. -/
  | template (msg : GoString)
  /-- A slice bound out of range. -/
  | sliceBounds
  deriving DecidableEq, Repr

/-- `filepath.Dir`: the path up to its last `/`, cleaned. -/
def filepath.Dir (path : GoString) : GoString :=
  filepath.Clean (path.reverse.dropWhile (· != 47)).reverse

/-- The directories from the root down to the cleaned absolute path `a`, `a` included:
`/x/y` gives `/x`, `/x/y`. -/
def dirChain (a : GoString) : List GoString :=
  ((strings.Split a 47).inits.drop 2).map [47].intercalate

/-- Make each directory of a chain that is not there yet; a regular file in the chain is
an error. -/
def FS.mkdirs (fs : FS) : List GoString → Except RenderError FS
  | [] => .ok fs
  | d :: ds =>
    match fs.entry d with
    | some (.file _) => .error (.notDir d)
    | some .dir => fs.mkdirs ds
    | none => FS.mkdirs { fs with nodes := (d, .dir) :: fs.nodes } ds

/-- `os.MkdirAll(p, 0755)`: the directory `p` and its parents exist afterwards; it fails
where one of them is a regular file. -/
def FS.MkdirAll (fs : FS) (p : GoString) : Except RenderError FS :=
  if p = [] then .error (.notExist p) else fs.mkdirs (dirChain (absIn fs.wd p))

/-- `os.Create(p)`: create the regular file `p` or truncate it; it fails where `p` names a
directory and where the parent of `p` is not a directory. -/
def FS.Create (fs : FS) (p : GoString) : Except RenderError FS :=
  if p = [] then .error (.notExist p)
  else
    match fs.entry (absIn fs.wd p) with
    | some .dir => .error (.isDir p)
    | _ =>
      match fs.entry (filepath.Dir (absIn fs.wd p)) with
      | some .dir => .ok (fs.set (absIn fs.wd p) (.file []))
      | some (.file _) => .error (.notDir p)
      | none => .error (.notExist p)

/-- `copyFile`: open `src`, make the directory of `dst`, create (truncate) `dst`, then copy
what the open source holds at that moment. -/
def copyFile (fs : FS) (src dst : GoString) : Except RenderError FS :=
  match fs.stat src with
  | none => .error (.notExist src)
  | some _ =>
    match fs.MkdirAll (filepath.Dir dst) with
    | .error e => .error e
    | .ok fs1 =>
      match fs1.Create dst with
      | .error e => .error e
      | .ok fs2 =>
        match fs2.stat src with
        | some (.file data) => .ok (fs2.set (absIn fs2.wd dst) (.file data))
        | some .dir => .error (.isDir src)
        | none => .error (.notExist src)

/-- The marker extension `.tpl`. -/
def tplExt : GoString := [46, 116, 112, 108]

/-- Package text/template, as far as `renderTemplateFile` uses it. -/
structure TextTemplate where
  /-- `template.New(name).Parse(text)`: the error, when the text does not parse. -/
  parseError : GoString → Option GoString
  /-- `tpl.Execute(outFile, ctx)` for a text that parses: the error, or the bytes written. -/
  execute : GoString → TemplateContext → Except GoString GoString

/-- `renderTemplateFile`: a file whose path ends in `.tpl` is read and parsed, the
directory of the output path without its last four bytes is made, that file is created and
the template executed into it; any other file is copied. The state that a failure leaves
behind is not represented. -/
def renderTemplateFile (tt : TextTemplate) (fs : FS) (tplPath outPath : GoString)
    (ctx : TemplateContext) : Except RenderError FS :=
  if strings.HasSuffix tplPath tplExt then
    match fs.stat tplPath with
    | none => .error (.notExist tplPath)
    | some .dir => .error (.isDir tplPath)
    | some (.file tplBytes) =>
      match tt.parseError tplBytes with
      | some msg => .error (.template msg)
      | none =>
        if outPath.length < 4 then .error .sliceBounds
        else
          match fs.MkdirAll (filepath.Dir (outPath.take (outPath.length - 4))) with
          | .error e => .error e
          | .ok fs1 =>
            match fs1.Create (outPath.take (outPath.length - 4)) with
            | .error e => .error e
            | .ok fs2 =>
              match tt.execute tplBytes ctx with
              | .error msg => .error (.template msg)
              | .ok text =>
                .ok (fs2.set (absIn fs2.wd (outPath.take (outPath.length - 4))) (.file text))
  else copyFile fs tplPath outPath

/-- The walk of `initGenericProject` over the template tree. `files` are the regular files
that `filepath.Walk` visits, in its order, each by its path relative to `templateRoot`
(what `filepath.Rel(templateRoot, path)` returns); the first error ends the walk. -/
def renderTree (tt : TextTemplate)
    (templateRoot root : GoString) (ctx : TemplateContext) :
    FS → List GoString → Except RenderError FS
  | fs, [] => .ok fs
  | fs, relPath :: rest =>
    let path := filepath.Join [templateRoot, relPath]
    let outPath := filepath.Join [root, relPath]
    match renderTemplateFile tt fs path outPath ctx with
    | .error e => .error e
    | .ok fs1 => renderTree tt templateRoot root ctx fs1 rest

/-- A state a file system can be in: the working directory is a cleaned absolute path of
a directory, every entry stands under a cleaned absolute path, and the parent of every
entry is a directory (the root `/` is one without an entry). -/
def FS.wellFormed (fs : FS) : Bool :=
  filepath.IsAbs fs.wd && filepath.Clean fs.wd == fs.wd &&
  (fs.wd == [47] || fs.entry fs.wd == some .dir) &&
  fs.nodes.all fun e =>
    filepath.IsAbs e.1 && filepath.Clean e.1 == e.1 &&
    (e.1 != [47] || e.2 == .dir) &&
    (filepath.Dir e.1 == [47] || fs.entry (filepath.Dir e.1) == some .dir)

/-- The relative path of the output of a file of the tree: without the trailing `.tpl`
for a marker file, unchanged for any other file. -/
def stripTpl (rel : GoString) : GoString :=
  if strings.HasSuffix rel tplExt then rel.take (rel.length - 4) else rel

/-- A relative path as `filepath.Rel` returns it for a file below the base: names other
than `.` and `..`, none of them empty, joined by `/`. -/
def isTreePath (rel : GoString) : Bool :=
  (strings.Split rel 47).all fun e => e != [] && e != [46] && e != [46, 46]

/-- The path of the file that `renderTemplateFile` creates when the walk calls it for the
file `relPath` of the tree. -/
def outputPath (templateRoot root relPath : GoString) : GoString :=
  let outPath := filepath.Join [root, relPath]
  if strings.HasSuffix (filepath.Join [templateRoot, relPath]) tplExt then
    outPath.take (outPath.length - 4)
  else outPath

end Lokstra

/-! # Theorems -/

namespace Lokstra

/-! ## The scheme rule -/

theorem getSchemeLoop_ok (raw : GoString) :
    ∀ (rest pre : GoString) (scheme path : GoString), raw = pre ++ rest →
      url.getSchemeLoop raw pre.length rest = .ok (scheme, path) →
      scheme = [] ∨ raw = scheme ++ 58 :: path := by
  intro rest
  induction rest with
  | nil =>
    intro pre scheme path _ h
    simp [url.getSchemeLoop] at h
    exact Or.inl h.1
  | cons c cs ih =>
    intro pre scheme path hraw h
    have hraw2 : raw = (pre ++ [c]) ++ cs := by simp [hraw]
    have hlen : (pre ++ [c]).length = pre.length + 1 := by simp
    unfold url.getSchemeLoop at h
    split at h
    · rw [← hlen] at h
      exact ih _ _ _ hraw2 h
    · split at h
      · split at h
        · simp at h; exact Or.inl h.1
        · rw [← hlen] at h
          exact ih _ _ _ hraw2 h
      · split at h
        · split at h
          · simp at h
          · rename_i hc _
            simp at h
            right
            subst hc
            rw [← h.1, ← h.2, hraw]
            simp
        · simp at h; exact Or.inl h.1


theorem setPath_Scheme {u v : url.URL} {p : GoString} (h : url.setPath u p = .ok v) :
    v.Scheme = u.Scheme := by
  unfold url.setPath at h
  split at h
  · simp at h
  · simp at h; rw [← h]

theorem parse_Scheme (raw : GoString) (u : url.URL) (h : url.parse raw false = .ok u) :
    (raw = [42] ∧ u.Scheme = []) ∨ ∃ scheme path, url.getScheme raw = .ok (scheme, path) ∧
      u.Scheme = strings.ToLower scheme := by
  unfold url.parse at h
  split at h
  · simp at h
  split at h
  · simp at h
  split at h
  · rename_i h42
    simp at h; left; exact ⟨h42, by rw [← h]⟩
  split at h
  · simp at h
  rename_i scheme rest0 hgs
  refine Or.inr ⟨scheme, rest0, hgs, ?_⟩
  simp only [] at h
  split at h
  all_goals (try split at h)
  all_goals (try split at h)
  all_goals (try split at h)
  all_goals (try split at h)
  all_goals (try split at h)
  all_goals (try split at h)
  all_goals first
    | (cases h <;> rfl)
    | exact (setPath_Scheme h).trans rfl


theorem Cut_fst_isPrefix (s : GoString) (c : Nat) : (strings.Cut s c).1 <+: s := by
  unfold strings.Cut
  split
  · exact List.take_prefix _ _
  · exact List.prefix_refl _

theorem setFragment_Scheme {u v : url.URL} {f : GoString} (h : url.setFragment u f = .ok v) :
    v.Scheme = u.Scheme := by
  unfold url.setFragment at h
  split at h
  · simp at h
  · simp at h; rw [← h]

theorem lokstra_bytes : utf8 "lokstra" = [108, 111, 107, 115, 116, 114, 97] := by decide

theorem Parse_Scheme (uri : GoString) (u : url.URL) (h : url.Parse uri = .ok u) :
    ∃ v, url.parse (strings.Cut uri 35).1 false = .ok v ∧ u.Scheme = v.Scheme := by
  unfold url.Parse at h
  simp only [] at h
  split at h
  · simp at h
  · rename_i v hv
    refine ⟨v, hv, ?_⟩
    split at h
    · simp at h; rw [h]
    · split at h
      · simp at h
      · rename_i w hw
        simp at h
        rw [← h]
        exact setFragment_Scheme hw

theorem Parse_lokstra_start (uri : GoString) (u : url.URL) (h : url.Parse uri = .ok u)
    (hs : u.Scheme = utf8 "lokstra") : strings.ToLower (uri.take 7) = utf8 "lokstra" := by
  obtain ⟨v, hv, huv⟩ := Parse_Scheme uri u h
  rw [huv] at hs
  rcases parse_Scheme _ v hv with ⟨_, h0⟩ | ⟨scheme, path, hgs, hsch⟩
  · rw [h0, lokstra_bytes] at hs; simp at hs
  · rw [hsch] at hs
    rcases getSchemeLoop_ok _ _ [] scheme path (by simp) hgs with h0 | hraw
    · subst h0; rw [lokstra_bytes] at hs; simp [strings.ToLower] at hs
    · have hlen : scheme.length = 7 := by
        have := congrArg List.length hs
        simpa [strings.ToLower, lokstra_bytes] using this
      obtain ⟨t, ht⟩ := Cut_fst_isPrefix uri 35
      rw [hraw] at ht
      have : uri.take 7 = scheme := by
        rw [← ht, List.append_assoc, ← hlen, List.take_left]
      rw [this, hs]

/-- C1, as stated, fails: `:x` is non-empty and does not start with `lokstra`, yet the
reason is the parse error `invalid URI`; `LOKSTRA://UserService/primary` does not start
with `lokstra` either, yet it is accepted (`url.Parse` lower-cases the scheme). -/
theorem ValidateServiceURI_foreign_prefix_counterexample :
    (utf8 ":x" ≠ [] ∧ strings.HasPrefix (utf8 ":x") (utf8 "lokstra") = false ∧
      ValidateServiceURI (utf8 ":x") =
        some (.invalidURI ⟨utf8 "parse", utf8 ":x", .text (utf8 "missing protocol scheme")⟩)) ∧
    (utf8 "LOKSTRA://UserService/primary" ≠ [] ∧
      strings.HasPrefix (utf8 "LOKSTRA://UserService/primary") (utf8 "lokstra") = false ∧
      ValidateServiceURI (utf8 "LOKSTRA://UserService/primary") = none) := by
  decide

/-- C1, amended: a string that does not start with `lokstra` in any letter case is never
accepted. When `url.Parse` accepts it the reason is `invalid scheme: <scheme>`, with the
lower-cased scheme `url.Parse` found (empty when there is none); when `url.Parse` rejects
it the reason is the parse error `invalid URI: ...`. -/
theorem ValidateServiceURI_foreign_scheme (uri : GoString)
    (hpre : strings.ToLower (uri.take 7) ≠ utf8 "lokstra") :
    match url.Parse uri with
    | .ok u =>
      ValidateServiceURI uri = some (.invalidScheme u.Scheme) ∧
        ∀ quote, (ServiceURIError.invalidScheme u.Scheme).Error quote =
          utf8 "invalid scheme: " ++ u.Scheme
    | .error e => ValidateServiceURI uri = some (.invalidURI e) := by
  split
  · rename_i u hu
    refine ⟨?_, fun _ => rfl⟩
    have hs : u.Scheme ≠ utf8 "lokstra" := fun hs => hpre (Parse_lokstra_start uri u hu hs)
    simp [ValidateServiceURI, hu, hs]
  · rename_i e he
    simp [ValidateServiceURI, he]

/-- C1, amended, at `http://UserService/primary`: rejected with `invalid scheme: http`. -/
theorem ValidateServiceURI_foreign_scheme_witness :
    strings.ToLower ((utf8 "http://UserService/primary").take 7) ≠ utf8 "lokstra" ∧
    (match url.Parse (utf8 "http://UserService/primary") with
    | .ok u =>
      ValidateServiceURI (utf8 "http://UserService/primary") = some (.invalidScheme u.Scheme) ∧
        ∀ quote, (ServiceURIError.invalidScheme u.Scheme).Error quote =
          utf8 "invalid scheme: " ++ u.Scheme
    | .error e => ValidateServiceURI (utf8 "http://UserService/primary") = some (.invalidURI e)) :=
  ⟨by decide, ValidateServiceURI_foreign_scheme (utf8 "http://UserService/primary") (by decide)⟩

/-! ## Acceptance of well-formed service URIs -/

theorem Index_singleton_none {s : GoString} {c : Nat} (h : c ∉ s) :
    strings.Index s [c] = none := by
  induction s with
  | nil => simp [strings.Index]
  | cons b bs ih =>
    simp only [List.mem_cons, not_or] at h
    simp [strings.Index, h.1, ih h.2]

theorem Index_singleton_append {a b : GoString} {c : Nat} (h : c ∉ a) :
    strings.Index (a ++ c :: b) [c] = some a.length := by
  induction a with
  | nil => simp [strings.Index]
  | cons x xs ih =>
    simp only [List.mem_cons, not_or] at h
    simp [strings.Index, h.1, ih h.2]

theorem LastIndexByte_none {s : GoString} {c : Nat} (h : c ∉ s) :
    strings.LastIndexByte s c = none := by
  have : c ∉ s.reverse := by simpa using h
  simp [strings.LastIndexByte, Index_singleton_none this]

theorem Contains_singleton_false {s : GoString} {c : Nat} (h : c ∉ s) :
    strings.Contains s [c] = false := by
  simp [strings.Contains, Index_singleton_none h]

theorem Cut_none {s : GoString} {c : Nat} (h : c ∉ s) :
    strings.Cut s c = (s, [], false) := by
  simp [strings.Cut, Index_singleton_none h]

theorem Split_none {s : GoString} {c : Nat} (h : c ∉ s) : strings.Split s c = [s] := by
  induction s with
  | nil => simp [strings.Split]
  | cons b bs ih =>
    simp only [List.mem_cons, not_or] at h
    have hb : ¬ b = c := fun e => h.1 e.symm
    simp [strings.Split, hb, ih h.2]

theorem Split_append {a b : GoString} {c : Nat} (h : c ∉ a) :
    strings.Split (a ++ c :: b) c = a :: strings.Split b c := by
  induction a with
  | nil => simp [strings.Split]
  | cons x xs ih =>
    simp only [List.mem_cons, not_or] at h
    have hb : ¬ x = c := fun e => h.1 e.symm
    simp [strings.Split, hb, ih h.2]

/-- The bytes of an identifier-like host element: letters, digits, `_` and `.`. -/
theorem unescapeCheck_host_plain (s : GoString)
    (h : ∀ c ∈ s, url.isAlnum c = true ∨ c = 95 ∨ c = 46) :
    url.unescapeCheck .encodeHost s = .ok (0, false) := by
  induction s with
  | nil => simp [url.unescapeCheck]
  | cons b bs ih =>
    have hb := h b (by simp)
    have ih2 := ih (fun c hc => h c (by simp [hc]))
    have h37 : b ≠ 37 := by
      rcases hb with hb | hb | hb
      · intro e; subst e; simp [url.isAlnum] at hb
      · omega
      · omega
    have h43 : b ≠ 43 := by
      rcases hb with hb | hb | hb
      · intro e; subst e; simp [url.isAlnum] at hb
      · omega
      · omega
    have hse : url.shouldEscape b .encodeHost = false := by
      rcases hb with hb | hb | hb
      · simp [url.shouldEscape, hb]
      · subst hb; decide
      · subst hb; decide
    unfold url.unescapeCheck
    simp [h37, h43, hse, ih2]

theorem lokstraSlashes_bytes :
    utf8 "lokstra://" = [108, 111, 107, 115, 116, 114, 97, 58, 47, 47] := by decide

theorem hostByte_range {c : Nat} (h : url.isAlnum c = true ∨ c = 95 ∨ c = 46) :
    46 ≤ c ∧ c ≤ 122 ∧ c ≠ 47 ∧ c ≠ 58 ∧ c ≠ 63 ∧ c ≠ 64 ∧ c ≠ 91 := by
  rcases h with h | h | h
  · simp [url.isAlnum] at h; omega
  · omega
  · omega

theorem getScheme_lokstra (t : GoString) :
    url.getScheme ([108, 111, 107, 115, 116, 114, 97, 58] ++ t) =
      .ok ([108, 111, 107, 115, 116, 114, 97], t) := by
  simp [url.getScheme, url.getSchemeLoop]

theorem Parse_service (host path dec : GoString)
    (hhost : ∀ c ∈ host, url.isAlnum c = true ∨ c = 95 ∨ c = 46)
    (hslash : strings.HasPrefix path [47] = true)
    (hctl : url.stringContainsCTLByte path = false)
    (hfrag : 35 ∉ path) (hq : 63 ∉ path)
    (hdec : url.unescape path .encodePath = .ok dec) :
    url.Parse (utf8 "lokstra://" ++ host ++ path) =
      .ok { Scheme := utf8 "lokstra", Host := host, Path := dec } := by
  have hr := fun c hc => hostByte_range (hhost c hc)
  obtain ⟨p, rfl⟩ : ∃ p, path = 47 :: p := by
    cases path with
    | nil => simp [strings.HasPrefix] at hslash
    | cons x xs => simp [strings.HasPrefix] at hslash; exact ⟨xs, by rw [hslash]⟩
  have hnot : ∀ k : Nat, (k < 46 ∨ 122 < k ∨ k = 47 ∨ k = 58 ∨ k = 63 ∨ k = 64 ∨ k = 91) →
      k ∉ host := by
    intro k hk hmem
    have := hr k hmem
    omega
  have h35 : (35 : Nat) ∉
      108 :: 111 :: 107 :: 115 :: 116 :: 114 :: 97 :: 58 :: 47 :: 47 :: (host ++ 47 :: p) := by
    intro hm
    simp at hm
    rcases hm with hm | hm
    · exact hnot 35 (by omega) hm
    · simp at hfrag; exact hfrag hm
  have h63 : (63 : Nat) ∉ 47 :: 47 :: (host ++ 47 :: p) := by
    intro hm
    simp at hm
    rcases hm with hm | hm
    · exact hnot 63 (by omega) hm
    · simp at hq; exact hq hm
  have hctlh : url.stringContainsCTLByte host = false := by
    simp only [url.stringContainsCTLByte, List.any_eq_false]
    intro c hc
    have := hr c hc
    simp; omega
  have hctl2 : url.stringContainsCTLByte
      (108 :: 111 :: 107 :: 115 :: 116 :: 114 :: 97 :: 58 :: 47 :: 47 :: (host ++ 47 :: p))
        = false := by
    simp only [url.stringContainsCTLByte, List.any_append, List.any_cons,
      Bool.or_eq_false_iff] at *
    exact ⟨by decide, by decide, by decide, by decide, by decide, by decide, by decide,
      by decide, by decide, by decide, hctlh, hctl⟩
  have hidx : strings.Index (host ++ 47 :: p) [47] = some host.length :=
    Index_singleton_append (hnot 47 (by omega))
  have hbr : strings.HasPrefix host [91] = false := by
    cases host with
    | nil => simp [strings.HasPrefix]
    | cons x xs =>
      have := hr x (by simp)
      simp [strings.HasPrefix, List.isPrefixOf]
      omega
  have hhostparse : url.parseHost host = .ok host := by
    simp [url.parseHost, hbr, LastIndexByte_none (hnot 58 (by omega)), url.unescape,
      unescapeCheck_host_plain host hhost]
  have hauth : url.parseAuthority host = .ok (none, host) := by
    simp [url.parseAuthority, LastIndexByte_none (hnot 64 (by omega)), hhostparse]
  have hparse : url.parse
      (108 :: 111 :: 107 :: 115 :: 116 :: 114 :: 97 :: 58 :: 47 :: 47 :: (host ++ 47 :: p)) false
      = .ok { Scheme := utf8 "lokstra", Host := host, Path := dec } := by
    unfold url.parse
    rw [if_neg (by simp [hctl2]), if_neg (by simp), if_neg (by simp)]
    have hgs := getScheme_lokstra (47 :: 47 :: (host ++ 47 :: p))
    simp only [List.cons_append, List.nil_append] at hgs
    rw [hgs]
    simp only [Cut_none h63]
    have hcnt : strings.CountByte (47 :: 47 :: (host ++ 47 :: p)) 63 = 0 := by
      simp only [strings.CountByte]
      exact List.count_eq_zero.mpr h63
    simp [hcnt, strings.HasPrefix, strings.ToLower, hidx, hauth, url.setPath, hdec,
      lokstra_bytes]
  rw [lokstraSlashes_bytes]
  simp only [List.cons_append, List.nil_append, List.append_assoc]
  simp [url.Parse, Cut_none h35, hparse]

theorem isCamelCase_interface_name (b : Nat) (rest : GoString) (hb : 65 ≤ b ∧ b ≤ 90)
    (hrest : ∀ c ∈ rest, url.isAlnum c = true) : isCamelCase (b :: rest) = true := by
  have h95 : (95 : Nat) ∉ b :: rest := by
    intro hm
    simp at hm
    rcases hm with hm | hm
    · omega
    · have := hrest 95 hm
      simp [url.isAlnum] at this
  have hup : unicode.IsUpper b = true := by
    simp [unicode.IsUpper]; omega
  simp [isCamelCase, hup, Contains_singleton_false h95]

/-- C2, as stated, fails: `UserService` matches `[A-Z][A-Za-z0-9]*` and the path `/` is
non-empty, yet `lokstra://UserService/` is rejected for its missing instance name. -/
theorem ValidateServiceURI_root_path_counterexample :
    utf8 "/" ≠ [] ∧
    ValidateServiceURI (utf8 "lokstra://" ++ utf8 "UserService" ++ utf8 "/") =
      some .missingInstanceName := by
  decide

/-- C2, amended: for every interface name `[A-Z][A-Za-z0-9]*` used as the host, alone or
after a package qualifier of letters, digits and underscores and a dot, and for every path
that starts with `/`, holds no control byte, `?` or `#`, has well-formed percent escapes
and keeps a byte after decoding and trimming `/`, `ValidateServiceURI` accepts
`lokstra://<host><path>`. -/
theorem ValidateServiceURI_accepts_interface_name (b : Nat) (rest path dec : GoString)
    (hb : 65 ≤ b ∧ b ≤ 90) (hrest : ∀ c ∈ rest, url.isAlnum c = true)
    (hslash : strings.HasPrefix path [47] = true)
    (hctl : url.stringContainsCTLByte path = false)
    (hfrag : 35 ∉ path) (hq : 63 ∉ path)
    (hdec : url.unescape path .encodePath = .ok dec)
    (hinst : strings.Trim dec 47 ≠ []) :
    ValidateServiceURI (utf8 "lokstra://" ++ (b :: rest) ++ path) = none ∧
    ∀ pkg : GoString, (∀ c ∈ pkg, url.isAlnum c = true ∨ c = 95) →
      ValidateServiceURI (utf8 "lokstra://" ++ (pkg ++ 46 :: b :: rest) ++ path) = none := by
  have hcamel := isCamelCase_interface_name b rest hb hrest
  have hb' : url.isAlnum b = true := by simp [url.isAlnum]; omega
  have h46 : (46 : Nat) ∉ b :: rest := by
    intro hm
    simp at hm
    rcases hm with hm | hm
    · omega
    · have := hrest 46 hm
      simp [url.isAlnum] at this
  constructor
  · have hhost : ∀ c ∈ b :: rest, url.isAlnum c = true ∨ c = 95 ∨ c = 46 := by
      intro c hc
      simp at hc
      rcases hc with hc | hc
      · subst hc; exact Or.inl hb'
      · exact Or.inl (hrest c hc)
    have hp := Parse_service (b :: rest) path dec hhost hslash hctl hfrag hq hdec
    unfold ValidateServiceURI
    rw [hp]
    simp [hinst, Split_none h46, hcamel]
  · intro pkg hpkg
    have hhost : ∀ c ∈ pkg ++ 46 :: b :: rest, url.isAlnum c = true ∨ c = 95 ∨ c = 46 := by
      intro c hc
      simp at hc
      rcases hc with hc | hc | hc | hc
      · rcases hpkg c hc with h | h
        · exact Or.inl h
        · exact Or.inr (Or.inl h)
      · exact Or.inr (Or.inr hc)
      · subst hc; exact Or.inl hb'
      · exact Or.inl (hrest c hc)
    have hpkg46 : (46 : Nat) ∉ pkg := by
      intro hm
      rcases hpkg 46 hm with h | h
      · simp [url.isAlnum] at h
      · omega
    have hp := Parse_service (pkg ++ 46 :: b :: rest) path dec hhost hslash hctl hfrag hq hdec
    unfold ValidateServiceURI
    rw [hp]
    simp [hinst, Split_append hpkg46, Split_none h46, hcamel]

/-- C2, amended, at `lokstra://UserService/primary` and `lokstra://my_pkg.UserService/primary`. -/
theorem ValidateServiceURI_accepts_interface_name_witness :
    ValidateServiceURI (utf8 "lokstra://" ++ (85 :: utf8 "serService") ++ utf8 "/primary") = none ∧
    ∀ pkg : GoString, (∀ c ∈ pkg, url.isAlnum c = true ∨ c = 95) →
      ValidateServiceURI
        (utf8 "lokstra://" ++ (pkg ++ 46 :: 85 :: utf8 "serService") ++ utf8 "/primary") = none :=
  ValidateServiceURI_accepts_interface_name 85 (utf8 "serService") (utf8 "/primary")
    (utf8 "/primary") (by decide) (by decide) (by decide) (by decide) (by decide) (by decide)
    (by decide) (by decide)

/-! ## What an accepted service URI looks like -/

/-- Whenever `ValidateServiceURI` accepts a string, `url.Parse` has parsed it, the scheme is
`lokstra`, the host is non-empty, the path keeps a byte after trimming `/`, the host has one
or two dot-separated elements, and the last of them passes `isCamelCase`: its first byte,
read as a Latin-1 code point, is upper case and it holds no underscore. -/
theorem ValidateServiceURI_accepted (uri : GoString) (h : ValidateServiceURI uri = none) :
    ∃ u, url.Parse uri = .ok u ∧ u.Scheme = utf8 "lokstra" ∧ u.Host ≠ [] ∧
      strings.Trim u.Path 47 ≠ [] ∧
      ∃ iface, (strings.Split u.Host 46 = [iface] ∨ ∃ p, strings.Split u.Host 46 = [p, iface]) ∧
        (∃ b t, iface = b :: t ∧ unicode.IsUpper b = true) ∧ strings.Contains iface [95] = false := by
  unfold ValidateServiceURI at h
  split at h
  · simp at h
  rename_i u hu
  refine ⟨u, hu, ?_⟩
  split at h
  · simp at h
  rename_i hs
  split at h
  · simp at h
  rename_i hh
  simp only [] at h
  split at h
  · simp at h
  rename_i hi
  have key : ∀ x, isCamelCase x = true →
      (∃ b t, x = b :: t ∧ unicode.IsUpper b = true) ∧ strings.Contains x [95] = false := by
    intro x hx
    cases x with
    | nil => simp [isCamelCase] at hx
    | cons b t =>
      simp only [isCamelCase] at hx
      split at hx
      · simp at hx
      · rename_i hb
        simp at hb hx
        exact ⟨⟨b, t, rfl, hb⟩, hx⟩
  refine ⟨not_not.mp hs, hh, hi, ?_⟩
  split at h
  · rename_i a ha
    split at h
    · simp at h
    · rename_i hc
      exact ⟨a, Or.inl ha, key a (by simpa using hc)⟩
  · rename_i p b hb
    split at h
    · simp at h
    · rename_i hc
      exact ⟨b, Or.inr ⟨p, hb⟩, key b (by simpa using hc)⟩
  · simp at h

/-- An interface name whose first byte is ASCII and not an upper-case letter fails
`isCamelCase`. -/
theorem isCamelCase_ascii_not_upper (b : Nat) (t : GoString) (hb : b < 128)
    (hup : ¬ (65 ≤ b ∧ b ≤ 90)) : isCamelCase (b :: t) = false := by
  have : unicode.IsUpper b = false := by
    simp [unicode.IsUpper]; omega
  simp [isCamelCase, this]

/-- C3: the interface name `éa` starts with a lower-case letter, yet `isCamelCase` holds
of it and `lokstra://éa/primary` is accepted: the first byte of `é` in UTF-8 is 0xC3, and
`unicode.IsUpper(rune(s[0]))` reads that byte as the upper-case letter U+00C3. The three
strings the claim lists are rejected. -/
theorem ValidateServiceURI_first_byte_as_rune :
    utf8 "éa" = [0xC3, 0xA9, 0x61] ∧ isCamelCase (utf8 "éa") = true ∧
    ValidateServiceURI (utf8 "lokstra://éa/primary") = none ∧
    ValidateServiceURI (utf8 "lokstra://user_service/primary") =
      some (.notCamelCase (utf8 "user_service")) ∧
    ValidateServiceURI (utf8 "lokstra:///primary") = some .missingServiceType ∧
    ValidateServiceURI (utf8 "lokstra://UserService") = some .missingInstanceName := by
  decide

/-! ## The host elements -/

/-- C4: for a URI that passes the scheme, host and instance-name checks the verdict is
decided by the dot-separated elements of the host: one element is the candidate itself; of
two elements `p.I` the candidate is `I`, whatever `p` is; any other count fails with
`invalid serviceType format: <host>`. The candidate passes exactly when `isCamelCase`
holds, and fails with `interface name must be CamelCase: <name>` otherwise. -/
theorem ValidateServiceURI_host_elements (uri : GoString) (u : url.URL)
    (hp : url.Parse uri = .ok u) (hs : u.Scheme = utf8 "lokstra") (hh : u.Host ≠ [])
    (hi : strings.Trim u.Path 47 ≠ []) :
    (∀ a, strings.Split u.Host 46 = [a] →
      ValidateServiceURI uri = if isCamelCase a then none else some (.notCamelCase a)) ∧
    (∀ p i, strings.Split u.Host 46 = [p, i] →
      (ValidateServiceURI uri = if isCamelCase i then none else some (.notCamelCase i)) ∧
      ∀ uri2 u2 p2, url.Parse uri2 = .ok u2 → u2.Scheme = utf8 "lokstra" → u2.Host ≠ [] →
        strings.Trim u2.Path 47 ≠ [] → strings.Split u2.Host 46 = [p2, i] →
        ValidateServiceURI uri2 = ValidateServiceURI uri) ∧
    ((strings.Split u.Host 46).length ≠ 1 → (strings.Split u.Host 46).length ≠ 2 →
      ValidateServiceURI uri = some (.invalidServiceTypeFormat u.Host)) ∧
    (∀ quote name host, (ServiceURIError.notCamelCase name).Error quote =
        utf8 "interface name must be CamelCase: " ++ name ∧
      (ServiceURIError.invalidServiceTypeFormat host).Error quote =
        utf8 "invalid serviceType format: " ++ host) := by
  have two : ∀ (uri : GoString) (u : url.URL) (p i : GoString), url.Parse uri = .ok u →
      u.Scheme = utf8 "lokstra" → u.Host ≠ [] → strings.Trim u.Path 47 ≠ [] →
      strings.Split u.Host 46 = [p, i] →
      ValidateServiceURI uri = if isCamelCase i then none else some (.notCamelCase i) := by
    intro uri u p i hp hs hh hi hsp
    unfold ValidateServiceURI
    rw [hp]
    simp only [hs, hh, hi, hsp]
    cases isCamelCase i <;> simp
  refine ⟨?_, ?_, ?_, fun _ _ _ => ⟨rfl, rfl⟩⟩
  · intro a ha
    unfold ValidateServiceURI
    rw [hp]
    simp only [hs, hh, hi, ha]
    cases isCamelCase a <;> simp
  · intro p i hsp
    refine ⟨two uri u p i hp hs hh hi hsp, ?_⟩
    intro uri2 u2 p2 hp2 hs2 hh2 hi2 hsp2
    rw [two uri u p i hp hs hh hi hsp, two uri2 u2 p2 i hp2 hs2 hh2 hi2 hsp2]
  · intro h1 h2
    unfold ValidateServiceURI
    rw [hp]
    simp only [hs, hh, hi, ne_eq, not_true_eq_false, not_false_eq_true, if_false, if_true]
    split
    · rename_i a ha; simp [ha] at h1
    · rename_i a b hb; simp [hb] at h2
    · rfl

/-- C4 at `lokstra://pkg.UserService/primary` (accepted, the candidate is `UserService`)
and at `lokstra://a.b.c/primary` (three elements: rejected). -/
theorem ValidateServiceURI_host_elements_witness :
    url.Parse (utf8 "lokstra://pkg.UserService/primary") =
      .ok { Scheme := utf8 "lokstra", Host := utf8 "pkg.UserService", Path := utf8 "/primary" } ∧
    strings.Split (utf8 "pkg.UserService") 46 = [utf8 "pkg", utf8 "UserService"] ∧
    ValidateServiceURI (utf8 "lokstra://pkg.UserService/primary") = none ∧
    url.Parse (utf8 "lokstra://a.b.c/primary") =
      .ok { Scheme := utf8 "lokstra", Host := utf8 "a.b.c", Path := utf8 "/primary" } ∧
    ValidateServiceURI (utf8 "lokstra://a.b.c/primary") =
      some (.invalidServiceTypeFormat (utf8 "a.b.c")) :=
  ⟨by decide, by decide,
    (((ValidateServiceURI_host_elements (utf8 "lokstra://pkg.UserService/primary")
      { Scheme := utf8 "lokstra", Host := utf8 "pkg.UserService", Path := utf8 "/primary" }
      (by decide) (by decide) (by decide) (by decide)).2.1
        (utf8 "pkg") (utf8 "UserService") (by decide)).1).trans (by decide),
    by decide,
    (ValidateServiceURI_host_elements (utf8 "lokstra://a.b.c/primary")
      { Scheme := utf8 "lokstra", Host := utf8 "a.b.c", Path := utf8 "/primary" }
      (by decide) (by decide) (by decide) (by decide)).2.2.1 (by decide) (by decide)⟩

/-! ## The lint scan -/

theorem matchesAt_iff (s : GoString) :
    regexp.matchesAt s = true ↔
      ∃ b t, regexp.isTokenByte b = true ∧
        s = [108, 111, 107, 115, 116, 114, 97, 58, 47, 47] ++ b :: t := by
  unfold regexp.matchesAt
  rw [lokstraSlashes_bytes]
  constructor
  · intro h
    simp only [Bool.and_eq_true] at h
    obtain ⟨h1, h2⟩ := h
    obtain ⟨t, rfl⟩ := List.isPrefixOf_iff_prefix.mp h1
    simp at h2
    cases t with
    | nil => simp at h2
    | cons b t => exact ⟨b, t, by simpa using h2, rfl⟩
  · rintro ⟨b, t, hb, rfl⟩
    simp [hb, List.isPrefixOf]

theorem matchesAt_append {s : GoString} (h : regexp.matchesAt s = true) (t : GoString) :
    regexp.matchesAt (s ++ t) = true := by
  obtain ⟨b, r, hb, rfl⟩ := (matchesAt_iff s).mp h
  exact (matchesAt_iff _).mpr ⟨b, r ++ t, hb, by simp⟩

theorem matchesAt_head {b : Nat} {bs : GoString} (h : regexp.matchesAt (b :: bs) = true) :
    regexp.isTokenByte b = true := by
  obtain ⟨c, r, _, hs⟩ := (matchesAt_iff _).mp h
  simp at hs
  rw [hs.1]
  decide

/-- A match that ends before a byte outside the class holds the literal and one more byte. -/
theorem matchesAt_of_run {tok : GoString} {d : Nat} {rest : GoString}
    (h : regexp.matchesAt (tok ++ d :: rest) = true)
    (htok : ∀ x ∈ tok, regexp.isTokenByte x = true) (hd : regexp.isTokenByte d = false) :
    regexp.matchesAt tok = true := by
  obtain ⟨b, r, hb, hs⟩ := (matchesAt_iff _).mp h
  have htw : (tok ++ d :: rest).takeWhile regexp.isTokenByte = tok := by
    rw [List.takeWhile_append_of_pos htok]
    simp [List.takeWhile, hd]
  have hlit : ∀ x ∈ [108, 111, 107, 115, 116, 114, 97, 58, 47, 47],
      regexp.isTokenByte x = true := by decide
  rw [hs, List.takeWhile_append_of_pos hlit, List.takeWhile_cons_of_pos hb] at htw
  exact (matchesAt_iff _).mpr ⟨b, r.takeWhile regexp.isTokenByte, hb, htw.symm⟩

theorem scan_sound (content : GoString) :
    ∀ (s : GoString) (cur : Option GoString),
      (match cur with
        | none => s <:+ content
        | some tok => (tok ++ s) <:+ content ∧ regexp.matchesAt (tok ++ s) = true ∧
            ∀ x ∈ tok, regexp.isTokenByte x = true) →
      ∀ m ∈ regexp.scan cur s,
        m <:+: content ∧ regexp.matchesAt m = true ∧ ∀ x ∈ m, regexp.isTokenByte x = true := by
  intro s
  induction s with
  | nil =>
    intro cur hcur m hm
    cases cur with
    | none => simp [regexp.scan] at hm
    | some tok =>
      simp [regexp.scan] at hm
      subst hm
      simp at hcur
      exact ⟨hcur.1.isInfix, hcur.2.1, hcur.2.2⟩
  | cons b bs ih =>
    intro cur hcur m hm
    cases cur with
    | none =>
      simp only at hcur
      simp only [regexp.scan] at hm
      split at hm
      · rename_i hmatch
        refine ih (some [b]) ?_ m hm
        refine ⟨hcur, hmatch, ?_⟩
        intro x hx
        simp at hx
        subst hx
        exact matchesAt_head hmatch
      · exact ih none (List.IsSuffix.trans (List.suffix_cons b bs) hcur) m hm
    | some tok =>
      simp only at hcur
      obtain ⟨hsuf, hmatch, htok⟩ := hcur
      simp only [regexp.scan] at hm
      split at hm
      · rename_i hb
        refine ih (some (tok ++ [b])) ?_ m hm
        refine ⟨by simpa using hsuf, by simpa using hmatch, ?_⟩
        intro x hx
        simp at hx
        rcases hx with hx | hx
        · exact htok x hx
        · subst hx; exact hb
      · rename_i hb
        simp at hm
        rcases hm with hm | hm
        · subst hm
          refine ⟨?_, matchesAt_of_run hmatch htok (by simpa using hb), htok⟩
          obtain ⟨pre, hpre⟩ := hsuf
          exact ⟨pre, b :: bs, by simpa using hpre⟩
        · refine ih none ?_ m hm
          exact List.IsSuffix.trans ⟨tok ++ [b], by simp⟩ hsuf

theorem scan_run (d : Nat) (rest : GoString) (hd : regexp.isTokenByte d = false) :
    ∀ (t acc : GoString), (∀ x ∈ t, regexp.isTokenByte x = true) →
      regexp.scan (some acc) (t ++ d :: rest) = (acc ++ t) :: regexp.scan none rest := by
  intro t
  induction t with
  | nil => intro acc _; simp [regexp.scan, hd]
  | cons x xs ih =>
    intro acc h
    have hx := h x (by simp)
    simp [regexp.scan, hx, ih (acc ++ [x]) (fun y hy => h y (by simp [hy]))]

theorem FindAllString_token (tok : GoString) (d : Nat) (rest : GoString)
    (hmatch : regexp.matchesAt tok = true) (htok : ∀ x ∈ tok, regexp.isTokenByte x = true)
    (hd : regexp.isTokenByte d = false) :
    regexp.FindAllString (tok ++ d :: rest) = tok :: regexp.FindAllString rest := by
  cases tok with
  | nil => simp [regexp.matchesAt, List.isPrefixOf, lokstraSlashes_bytes] at hmatch
  | cons b t =>
    have h1 : regexp.matchesAt (b :: (t ++ d :: rest)) = true := by
      simpa using matchesAt_append hmatch (d :: rest)
    show regexp.scan none (b :: (t ++ d :: rest)) = _
    rw [regexp.scan, if_pos h1, scan_run d rest hd t [b] (fun y hy => htok y (by simp [hy]))]
    simp [regexp.FindAllString]

theorem FindAllString_repeat (tok : GoString) (d : Nat)
    (hmatch : regexp.matchesAt tok = true) (htok : ∀ x ∈ tok, regexp.isTokenByte x = true)
    (hd : regexp.isTokenByte d = false) (n : Nat) :
    regexp.FindAllString (List.replicate n (tok ++ [d])).flatten = List.replicate n tok := by
  induction n with
  | zero => simp [regexp.FindAllString, regexp.scan]
  | succ k ih =>
    rw [List.replicate_succ, List.flatten_cons, List.append_assoc]
    simp only [List.singleton_append]
    rw [FindAllString_token tok d _ hmatch htok hd, ih, List.replicate_succ]

theorem issues_foldl (quote : GoString → GoString) (filePath : GoString) :
    ∀ (ms : List GoString) (acc : List GoString),
      ms.foldl
        (fun issues m =>
          match ValidateServiceURI m with
          | some err => issues ++ [issueText quote filePath err]
          | none => issues) acc
      = acc ++ ms.filterMap fun m => (ValidateServiceURI m).map (issueText quote filePath) := by
  intro ms
  induction ms with
  | nil => intro acc; simp
  | cons m ms ih =>
    intro acc
    simp only [List.foldl_cons, ih]
    cases h : ValidateServiceURI m <;> simp [List.filterMap_cons, h]

theorem scan_open (s : GoString) : ∀ acc : GoString,
    regexp.scan (some acc) s =
      (acc ++ s.takeWhile regexp.isTokenByte) ::
        regexp.scan none (s.dropWhile regexp.isTokenByte) := by
  induction s with
  | nil => intro acc; simp [regexp.scan]
  | cons b bs ih =>
    intro acc
    cases hb : regexp.isTokenByte b with
    | true => simp [regexp.scan, hb, ih, List.takeWhile, List.dropWhile]
    | false =>
      have hno : regexp.matchesAt (b :: bs) = false := by
        cases hm : regexp.matchesAt (b :: bs) with
        | false => rfl
        | true => rw [matchesAt_head hm] at hb; cases hb
      simp [regexp.scan, hb, hno, List.takeWhile, List.dropWhile]

/-- The search, position by position: where the pattern matches, the match is the longest
run of class bytes from there and the search goes on behind it; elsewhere the search moves
one byte on. -/
theorem FindAllString_cons (b : Nat) (bs : GoString) :
    regexp.FindAllString (b :: bs) =
      if regexp.matchesAt (b :: bs) = true then
        (b :: bs).takeWhile regexp.isTokenByte ::
          regexp.FindAllString ((b :: bs).dropWhile regexp.isTokenByte)
      else regexp.FindAllString bs := by
  unfold regexp.FindAllString
  rw [regexp.scan]
  split
  · rename_i hm
    have hb := matchesAt_head hm
    rw [scan_open]
    simp [List.takeWhile, List.dropWhile, hb]
  · rfl

/-- C5: `CheckServiceURIFormat` returns, in the order of their occurrence, one issue
`❌ <filePath>: <reason>` for each match of the pattern that `ValidateServiceURI` rejects
and nothing else. The matches are the successive leftmost longest runs that start with
`lokstra://` and one more byte outside white space and quotes. The result is empty exactly
when no match is rejected, and a rejected token that occurs `n` times yields `n` issues. -/
theorem CheckServiceURIFormat_issues (quote : GoString → GoString) (filePath content : GoString) :
    CheckServiceURIFormat quote filePath content =
      (regexp.FindAllString content).filterMap
        (fun m => (ValidateServiceURI m).map
          fun err => utf8 "❌ " ++ filePath ++ utf8 ": " ++ err.Error quote) ∧
    (regexp.FindAllString [] = [] ∧ ∀ b bs, regexp.FindAllString (b :: bs) =
      if regexp.matchesAt (b :: bs) = true then
        (b :: bs).takeWhile regexp.isTokenByte ::
          regexp.FindAllString ((b :: bs).dropWhile regexp.isTokenByte)
      else regexp.FindAllString bs) ∧
    (∀ m ∈ regexp.FindAllString content, m <:+: content ∧
      strings.HasPrefix m (utf8 "lokstra://") = true ∧ 10 < m.length ∧
      ∀ x ∈ m, regexp.isTokenByte x = true) ∧
    (CheckServiceURIFormat quote filePath content = [] ↔
      ∀ m ∈ regexp.FindAllString content, ValidateServiceURI m = none) ∧
    (∀ (tok : GoString) (d n : Nat) (err : ServiceURIError),
      regexp.matchesAt tok = true → (∀ x ∈ tok, regexp.isTokenByte x = true) →
      regexp.isTokenByte d = false → ValidateServiceURI tok = some err →
      CheckServiceURIFormat quote filePath (List.replicate n (tok ++ [d])).flatten =
        List.replicate n (utf8 "❌ " ++ filePath ++ utf8 ": " ++ err.Error quote)) := by
  have hspec : ∀ c, CheckServiceURIFormat quote filePath c =
      (regexp.FindAllString c).filterMap
        (fun m => (ValidateServiceURI m).map
          fun err => utf8 "❌ " ++ filePath ++ utf8 ": " ++ err.Error quote) := by
    intro c
    unfold CheckServiceURIFormat
    rw [issues_foldl]
    rfl
  refine ⟨hspec content, ⟨rfl, FindAllString_cons⟩, ?_, ?_, ?_⟩
  · intro m hm
    obtain ⟨h1, h2, h3⟩ := scan_sound content content none (List.suffix_refl _) m hm
    obtain ⟨b, t, _, rfl⟩ := (matchesAt_iff m).mp h2
    refine ⟨h1, ?_, by simp, h3⟩
    rw [lokstraSlashes_bytes]
    simp [strings.HasPrefix, List.isPrefixOf]
  · rw [hspec content]
    simp only [List.filterMap_eq_nil_iff, Option.map_eq_none']
  · intro tok d n err hmatch htok hd herr
    rw [hspec, FindAllString_repeat tok d hmatch htok hd n]
    induction n with
    | zero => simp
    | succ k ih => simp [List.replicate_succ, List.filterMap_cons, herr, ih]

/-- C5 on a file that holds the rejected token `lokstra://x/y` twice around an accepted one:
two equal issues, in order, neither merged nor cut short. -/
theorem CheckServiceURIFormat_issues_witness :
    CheckServiceURIFormat (fun s => [34] ++ s ++ [34]) (utf8 "main.go")
        (utf8 "a lokstra://x/y lokstra://X/y lokstra://x/y") =
      [utf8 "❌ main.go: interface name must be CamelCase: x",
        utf8 "❌ main.go: interface name must be CamelCase: x"] :=
  (CheckServiceURIFormat_issues (fun s => [34] ++ s ++ [34]) (utf8 "main.go")
    (utf8 "a lokstra://x/y lokstra://X/y lokstra://x/y")).1.trans (by decide)

/-! ## Template resolution -/

/-- C6, as stated, fails: `.` is non-empty and names an existing directory, yet when the
working directory cannot be determined (it was removed) `resolveTemplatePath` returns an
empty path and the error of `os.Getwd`. -/
theorem resolveTemplatePath_getwd_counterexample :
    utf8 "." ≠ [] ∧
    (⟨fun p => p == utf8 ".", [], .error (utf8 "getwd: no such file or directory")⟩ : World).isDir
      (utf8 ".") = true ∧
    resolveTemplatePath
      ⟨fun p => p == utf8 ".", [], .error (utf8 "getwd: no such file or directory")⟩ (utf8 ".") =
      ([], some (utf8 "getwd: no such file or directory")) := by
  decide

/-- C6, amended: for a non-empty hint that names an existing directory `resolveTemplatePath`
returns what `filepath.Abs` returns for the hint, whatever `scaffold/` and `LOKSTRA_TEMPLATE`
hold: the cleaned hint when it is absolute, the working directory joined with the hint when
it is relative and `os.Getwd` succeeds, and the error of `os.Getwd` with an empty path when
that fails. -/
theorem resolveTemplatePath_existing_directory (w : World) (hint : GoString)
    (hne : hint ≠ []) (hdir : w.isDir hint = true) :
    resolveTemplatePath w hint = filepath.Abs w hint ∧
    (filepath.IsAbs hint = true → resolveTemplatePath w hint = (filepath.Clean hint, none)) ∧
    (∀ wd, filepath.IsAbs hint = false → w.Getwd = .ok wd →
      resolveTemplatePath w hint = (filepath.Join [wd, hint], none)) ∧
    (∀ e, filepath.IsAbs hint = false → w.Getwd = .error e →
      resolveTemplatePath w hint = ([], some e)) ∧
    (∀ w2 : World, w2.isDir hint = true → w2.Getwd = w.Getwd →
      resolveTemplatePath w2 hint = resolveTemplatePath w hint) := by
  have key : ∀ v : World, v.isDir hint = true →
      resolveTemplatePath v hint = filepath.Abs v hint := by
    intro v hv
    simp [resolveTemplatePath, hne, hv]
  refine ⟨key w hdir, ?_, ?_, ?_, ?_⟩
  · intro ha
    rw [key w hdir]
    simp [filepath.Abs, ha]
  · intro wd ha hwd
    rw [key w hdir]
    simp [filepath.Abs, ha, hwd]
  · intro e ha he
    rw [key w hdir]
    simp [filepath.Abs, ha, he]
  · intro w2 h2 hg
    rw [key w hdir, key w2 h2]
    simp [filepath.Abs, hg]

/-- C6, amended, for the hint `tpl` in `/home/u`, with `scaffold/tpl` present as well and
`LOKSTRA_TEMPLATE` set: the result is `/home/u/tpl`. -/
theorem resolveTemplatePath_existing_directory_witness :
    utf8 "tpl" ≠ [] ∧
    resolveTemplatePath
      ⟨fun p => p == utf8 "tpl" || p == utf8 "scaffold/tpl", utf8 "other", .ok (utf8 "/home/u")⟩
      (utf8 "tpl") = (utf8 "/home/u/tpl", none) :=
  ⟨by decide,
    ((resolveTemplatePath_existing_directory
      ⟨fun p => p == utf8 "tpl" || p == utf8 "scaffold/tpl", utf8 "other", .ok (utf8 "/home/u")⟩
      (utf8 "tpl") (by decide) (by decide)).2.2.1 (utf8 "/home/u") (by decide) rfl).trans
      (by decide)⟩

/-- C7, as stated, fails: with no hint and `LOKSTRA_TEMPLATE=.` the working hint `.` names
an existing directory, yet `resolveTemplatePath` fails when `os.Getwd` fails (the working
directory was removed), and the error names neither the hint nor the searched locations. -/
theorem resolveTemplatePath_fails_counterexample :
    (⟨fun p => p == utf8 ".", utf8 ".",
        .error (utf8 "getwd: no such file or directory")⟩ : World).isDir (utf8 ".") = true ∧
    resolveTemplatePath
      ⟨fun p => p == utf8 ".", utf8 ".", .error (utf8 "getwd: no such file or directory")⟩ [] =
      ([], some (utf8 "getwd: no such file or directory")) := by
  decide

/-- C7, amended: with the working hint (the given hint, or when it is empty the value of
`LOKSTRA_TEMPLATE`, or else `default`), `resolveTemplatePath` fails if and only if the hint
names neither an existing directory nor an existing directory `scaffold/<hint>`, or names
an existing directory by a relative path while `os.Getwd` fails. Every failure returns an
empty path; in the first case the error text names the hint and both searched locations. -/
theorem resolveTemplatePath_fails_iff (w : World) (template : GoString) :
    let hint :=
      if template = [] then
        if w.LOKSTRA_TEMPLATE ≠ [] then w.LOKSTRA_TEMPLATE else utf8 "default"
      else template
    ((resolveTemplatePath w template).2 ≠ none ↔
      (w.isDir hint = false ∧ w.isDir (filepath.Join [utf8 "scaffold", hint]) = false) ∨
      (w.isDir hint = true ∧ filepath.IsAbs hint = false ∧ ∃ e, w.Getwd = .error e)) ∧
    ((resolveTemplatePath w template).2 ≠ none → (resolveTemplatePath w template).1 = []) ∧
    (w.isDir hint = false → w.isDir (filepath.Join [utf8 "scaffold", hint]) = false →
      resolveTemplatePath w template =
        ([], some (utf8 "template '" ++ hint ++
          utf8 "' not found (searched: direct path and ./scaffold/" ++ hint ++ utf8 "/)"))) ∧
    (w.isDir hint = false → w.isDir (filepath.Join [utf8 "scaffold", hint]) = true →
      resolveTemplatePath w template = (filepath.Join [utf8 "scaffold", hint], none)) := by
  intro hint
  have hres : resolveTemplatePath w template =
      if w.isDir hint then filepath.Abs w hint
      else if w.isDir (filepath.Join [utf8 "scaffold", hint]) then
        (filepath.Join [utf8 "scaffold", hint], none)
      else ([], some (notFoundText hint)) := rfl
  rw [hres]
  cases h1 : w.isDir hint with
  | true =>
    simp only [if_true]
    cases ha : filepath.IsAbs hint with
    | true => simp [filepath.Abs, ha]
    | false =>
      cases hg : w.Getwd with
      | error e => simp [filepath.Abs, ha, hg]
      | ok wd => simp [filepath.Abs, ha, hg]
  | false =>
    cases h2 : w.isDir (filepath.Join [utf8 "scaffold", hint]) with
    | true => simp
    | false => simp [notFoundText]

set_option maxRecDepth 4000 in
/-- C7, amended, for the hint `missing` where only `scaffold/default` exists. -/
theorem resolveTemplatePath_fails_iff_witness :
    resolveTemplatePath ⟨fun p => p == utf8 "scaffold/default", [], .ok (utf8 "/home/u")⟩
      (utf8 "missing") =
      ([], some (utf8
        "template 'missing' not found (searched: direct path and ./scaffold/missing/)")) :=
  ((resolveTemplatePath_fails_iff
    ⟨fun p => p == utf8 "scaffold/default", [], .ok (utf8 "/home/u")⟩ (utf8 "missing")).2.2.1
      (by decide) (by decide)).trans (by decide)

/-- C8, as stated, fails: the value `missing` names no directory and no `scaffold/missing`,
the template named by `LOKSTRA_TEMPLATE` (`scaffold/custom`) and `scaffold/default` both
exist, yet `resolveTemplatePath` fails; with no value it resolves to `scaffold/custom`. -/
theorem resolveTemplatePath_fallback_counterexample :
    utf8 "missing" ≠ [] ∧
    (⟨fun p => p == utf8 "scaffold/custom" || p == utf8 "scaffold/default", utf8 "custom",
        .ok (utf8 "/home/u")⟩ : World).isDir (utf8 "scaffold/default") = true ∧
    resolveTemplatePath
      ⟨fun p => p == utf8 "scaffold/custom" || p == utf8 "scaffold/default", utf8 "custom",
        .ok (utf8 "/home/u")⟩ (utf8 "missing") =
      ([], some (notFoundText (utf8 "missing"))) ∧
    resolveTemplatePath
      ⟨fun p => p == utf8 "scaffold/custom" || p == utf8 "scaffold/default", utf8 "custom",
        .ok (utf8 "/home/u")⟩ [] = (utf8 "scaffold/custom", none) := by
  decide

/-- C8, amended: `LOKSTRA_TEMPLATE` and `default` stand in for an empty template value
only. A non-empty value that names no directory and no directory `scaffold/<value>` makes
`resolveTemplatePath` fail, whatever `LOKSTRA_TEMPLATE` holds and whichever other templates
exist; an empty value resolves like the value of `LOKSTRA_TEMPLATE`, or like `default`
when that is empty too. -/
theorem resolveTemplatePath_no_fallback (w : World) (template : GoString)
    (hne : template ≠ []) (h1 : w.isDir template = false)
    (h2 : w.isDir (filepath.Join [utf8 "scaffold", template]) = false) :
    resolveTemplatePath w template = ([], some (notFoundText template)) ∧
    (∀ w2 : World, w2.isDir = w.isDir → w2.Getwd = w.Getwd →
      resolveTemplatePath w2 template = resolveTemplatePath w template) ∧
    (w.LOKSTRA_TEMPLATE ≠ [] → resolveTemplatePath w [] = resolveTemplatePath w w.LOKSTRA_TEMPLATE) ∧
    (w.LOKSTRA_TEMPLATE = [] → resolveTemplatePath w [] = resolveTemplatePath w (utf8 "default")) := by
  have hd : utf8 "default" ≠ [] := by decide
  refine ⟨by simp [resolveTemplatePath, hne, h1, h2], ?_, ?_, ?_⟩
  · intro w2 hdir _
    simp [resolveTemplatePath, hne, h1, h2, hdir]
  · intro he
    simp [resolveTemplatePath, he]
  · intro he
    simp [resolveTemplatePath, he, hd]

set_option maxRecDepth 4000 in
/-- C8, amended, for the value `missing` with `LOKSTRA_TEMPLATE=custom` and both
`scaffold/custom` and `scaffold/default` present. -/
theorem resolveTemplatePath_no_fallback_witness :
    resolveTemplatePath
      ⟨fun p => p == utf8 "scaffold/custom" || p == utf8 "scaffold/default", utf8 "custom",
        .ok (utf8 "/home/u")⟩ (utf8 "missing") =
      ([], some (utf8
        "template 'missing' not found (searched: direct path and ./scaffold/missing/)")) :=
  ((resolveTemplatePath_no_fallback
    ⟨fun p => p == utf8 "scaffold/custom" || p == utf8 "scaffold/default", utf8 "custom",
      .ok (utf8 "/home/u")⟩ (utf8 "missing") (by decide) (by decide) (by decide)).1).trans
    (by decide)

/-! ## Paths of the rendered tree -/

theorem Split_ne_nil (s : GoString) (c : Nat) : strings.Split s c ≠ [] := by
  cases s with
  | nil => simp [strings.Split]
  | cons b bs =>
    simp only [strings.Split]
    split
    · simp
    · split <;> simp

theorem Split_append_sep (a b : GoString) (c : Nat) :
    strings.Split (a ++ c :: b) c = strings.Split a c ++ strings.Split b c := by
  induction a with
  | nil => simp [strings.Split]
  | cons x xs ih =>
    by_cases hx : x = c
    · simp [strings.Split, hx, ih]
    · have hne := Split_ne_nil xs c
      cases hsp : strings.Split xs c with
      | nil => exact absurd hsp hne
      | cons h t => simp [strings.Split, hx, ih, hsp]

theorem intercalate_Split (s : GoString) (c : Nat) :
    [c].intercalate (strings.Split s c) = s := by
  induction s with
  | nil => simp [strings.Split, List.intercalate]
  | cons x xs ih =>
    have hne := Split_ne_nil xs c
    cases hsp : strings.Split xs c with
    | nil => exact absurd hsp hne
    | cons h t =>
      rw [hsp] at ih
      by_cases hx : x = c
      · simp only [strings.Split, hx, if_true, hsp]
        rw [← ih]
        simp [List.intercalate, List.intersperse]
      · simp only [strings.Split, hx, if_false, hsp]
        rw [← ih]
        cases t <;> simp [List.intercalate, List.intersperse]

theorem intercalate_append_ne_nil (sep : GoString) (l1 l2 : List GoString) (h2 : l2 ≠ []) :
    sep.intercalate (l1 ++ l2) =
      (if l1 = [] then [] else sep.intercalate l1 ++ sep) ++ sep.intercalate l2 := by
  induction l1 with
  | nil => simp
  | cons a t ih =>
    cases t with
    | nil =>
      cases l2 with
      | nil => exact absurd rfl h2
      | cons b t2 => simp [List.intercalate, List.intersperse]
    | cons a2 t2 =>
      simp only [List.cons_append] at ih ⊢
      simp only [List.intercalate, List.intersperse, List.flatten_cons] at ih ⊢
      simp at ih
      simp [ih]

theorem cleanStep_name (rooted : Bool) (out : List GoString) (e : GoString)
    (h : (e != [] && e != [46] && e != [46, 46]) = true) :
    filepath.cleanStep rooted out e = out ++ [e] := by
  simp at h
  simp [filepath.cleanStep, h]

theorem foldl_cleanStep_names (rooted : Bool) (names : List GoString)
    (h : names.all (fun e => e != [] && e != [46] && e != [46, 46]) = true) :
    ∀ out, names.foldl (filepath.cleanStep rooted) out = out ++ names := by
  induction names with
  | nil => intro out; simp
  | cons e es ih =>
    intro out
    rw [List.all_cons, Bool.and_eq_true] at h
    rw [List.foldl_cons, cleanStep_name rooted out e h.1, ih h.2]
    simp

theorem isTreePath_ne_nil {rel : GoString} (h : isTreePath rel = true) : rel ≠ [] := by
  intro e
  subst e
  simp [isTreePath, strings.Split] at h


/-- Cleaning a path that ends in `/` and the relative path of a file of the tree puts a
fixed text, empty or ending in `/`, in front of the relative path. -/
theorem Clean_treePath (y : GoString) :
    ∃ base : GoString, (base = [] ∨ ∃ b, base = b ++ [47]) ∧
      ∀ rel, isTreePath rel = true → filepath.Clean (y ++ 47 :: rel) = base ++ rel := by
  let rooted : Bool := strings.HasPrefix (y ++ [47]) [47]
  let st := (strings.Split y 47).foldl (filepath.cleanStep rooted) []
  let pre : GoString := if rooted then [47] else []
  refine ⟨pre ++ (if st = [] then [] else [47].intercalate st ++ [47]), ?_, ?_⟩
  · by_cases hst : st = []
    · by_cases hr : rooted = true
      · right; exact ⟨[], by simp [pre, hst, hr]⟩
      · left; simp [pre, hst, hr]
    · right
      exact ⟨pre ++ [47].intercalate st, by simp [hst]⟩
  · intro rel hrel
    have hne := isTreePath_ne_nil hrel
    have hrooted : strings.HasPrefix (y ++ 47 :: rel) [47] = rooted := by
      cases y <;> simp [rooted, strings.HasPrefix, List.isPrefixOf]
    have hfold : (strings.Split (y ++ 47 :: rel) 47).foldl (filepath.cleanStep rooted) []
        = st ++ strings.Split rel 47 := by
      rw [Split_append_sep, List.foldl_append]
      exact foldl_cleanStep_names rooted _ hrel _
    have hinter : [47].intercalate (st ++ strings.Split rel 47) =
        (if st = [] then [] else [47].intercalate st ++ [47]) ++ rel := by
      rw [intercalate_append_ne_nil _ _ _ (Split_ne_nil rel 47), intercalate_Split]
    unfold filepath.Clean
    rw [if_neg (by simp)]
    simp only [hrooted, hfold, hinter]
    rw [if_neg]
    · simp [pre]
    · intro h
      have := congrArg List.length h
      simp at this
      exact hne this.2.2

/-- Joining a root with the relative path of a file of the tree puts a fixed text, empty
or ending in `/`, in front of the relative path. -/
theorem Join_treePath (root : GoString) (hroot : root ≠ []) :
    ∃ base : GoString, (base = [] ∨ ∃ b, base = b ++ [47]) ∧
      ∀ rel, isTreePath rel = true → filepath.Join [root, rel] = base ++ rel := by
  obtain ⟨base, h1, h2⟩ := Clean_treePath root
  refine ⟨base, h1, ?_⟩
  intro rel hrel
  rw [← h2 rel hrel]
  simp [filepath.Join, hroot, List.intercalate, List.intersperse]

theorem HasSuffix_base (base rel : GoString) (hbase : base = [] ∨ ∃ b, base = b ++ [47]) :
    strings.HasSuffix (base ++ rel) tplExt = strings.HasSuffix rel tplExt := by
  have key : tplExt <:+ base ++ rel ↔ tplExt <:+ rel := by
    constructor
    · intro h
      rcases hbase with hb | ⟨b, hb⟩
      · simpa [hb] using h
      · by_cases hlen : tplExt.length ≤ rel.length
        · exact List.suffix_of_suffix_length_le h (List.suffix_append _ _) hlen
        · exfalso
          have h2 : [47] ++ rel <:+ base ++ rel := ⟨b, by simp [hb]⟩
          have h3 : [47] ++ rel <:+ tplExt :=
            List.suffix_of_suffix_length_le h2 h (by simp [tplExt] at hlen ⊢; omega)
          have h4 : (47 : Nat) ∈ tplExt := h3.subset (by simp)
          simp [tplExt] at h4
    · intro h
      exact h.trans (List.suffix_append _ _)
  unfold strings.HasSuffix
  rw [Bool.eq_iff_iff]
  simpa [List.isSuffixOf_iff_suffix] using key

theorem marker_split {r : GoString} (h : strings.HasSuffix r tplExt = true) :
    r = r.take (r.length - 4) ++ tplExt ∧ 4 ≤ r.length := by
  unfold strings.HasSuffix at h
  obtain ⟨t, ht⟩ := List.isSuffixOf_iff_suffix.mp h
  subst ht
  simp [tplExt]

/-- The output path of a file of the tree: a fixed text, empty or ending in `/`, in front
of the relative path without its `.tpl`. -/
theorem outputPath_treePath (templateRoot root : GoString) (ht : templateRoot ≠ [])
    (ho : root ≠ []) :
    ∃ base : GoString, (base = [] ∨ ∃ b, base = b ++ [47]) ∧
      ∀ rel, isTreePath rel = true →
        outputPath templateRoot root rel = base ++ stripTpl rel := by
  obtain ⟨baseT, hbT, hT⟩ := Join_treePath templateRoot ht
  obtain ⟨baseO, hbO, hO⟩ := Join_treePath root ho
  refine ⟨baseO, hbO, ?_⟩
  intro rel hrel
  unfold outputPath stripTpl
  simp only [hT rel hrel, hO rel hrel, HasSuffix_base baseT rel hbT]
  cases hm : strings.HasSuffix rel tplExt with
  | false => simp
  | true =>
    have h4 := (marker_split hm).2
    simp only [if_true]
    rw [List.take_append_eq_append_take]
    have e1 : (baseO ++ rel).length - 4 - baseO.length = rel.length - 4 := by
      simp; omega
    have e2 : baseO.length ≤ (baseO ++ rel).length - 4 := by
      simp; omega
    rw [e1, List.take_of_length_le e2]

theorem strip_eq_iff (r1 r2 : GoString) :
    stripTpl r1 = stripTpl r2 ↔
    (r1 = r2 ∨ (r1 = r2 ++ tplExt ∧ strings.HasSuffix r2 tplExt = false) ∨
      (r2 = r1 ++ tplExt ∧ strings.HasSuffix r1 tplExt = false)) := by
  unfold stripTpl
  have hsuf : ∀ r : GoString, strings.HasSuffix (r ++ tplExt) tplExt = true := by
    intro r
    unfold strings.HasSuffix
    exact List.isSuffixOf_iff_suffix.mpr (List.suffix_append _ _)
  have htake : ∀ r : GoString, (r ++ tplExt).take ((r ++ tplExt).length - 4) = r := by
    intro r
    simp [tplExt]
  cases h1 : strings.HasSuffix r1 tplExt <;> cases h2 : strings.HasSuffix r2 tplExt
  · simp only [Bool.false_eq_true, if_false]
    constructor
    · intro h; exact Or.inl h
    · rintro (h | ⟨h, _⟩ | ⟨h, _⟩)
      · exact h
      · rw [h, hsuf] at h1; cases h1
      · rw [h, hsuf] at h2; cases h2
  · simp only [Bool.false_eq_true, if_false, if_true]
    constructor
    · intro h
      right; right
      refine ⟨?_, trivial⟩
      rw [h]
      exact (marker_split h2).1
    · rintro (h | ⟨_, h⟩ | ⟨h, _⟩)
      · rw [h, h2] at h1; cases h1
      · cases h
      · rw [h, htake]
  · simp only [Bool.false_eq_true, if_false, if_true]
    constructor
    · intro h
      right; left
      refine ⟨?_, trivial⟩
      rw [← h]
      exact (marker_split h1).1
    · rintro (h | ⟨h, _⟩ | ⟨_, h⟩)
      · rw [h, h2] at h1; cases h1
      · rw [h, htake]
      · cases h
  · simp only [if_true]
    constructor
    · intro h
      left
      rw [(marker_split h1).1, (marker_split h2).1, h]
    · rintro (h | ⟨_, h⟩ | ⟨_, h⟩)
      · rw [h]
      · cases h
      · cases h

theorem isTreePath_not_abs {rel : GoString} (h : isTreePath rel = true) :
    filepath.IsAbs rel = false := by
  cases rel with
  | nil => simp [filepath.IsAbs, strings.HasPrefix, List.isPrefixOf]
  | cons x xs =>
    by_cases hx : x = 47
    · subst hx
      simp [isTreePath, strings.Split] at h
    · simp [filepath.IsAbs, strings.HasPrefix, List.isPrefixOf]
      exact fun e => hx e.symm

/-- The cleaned absolute path of a path that is a fixed text, empty or ending in `/`,
followed by the relative path of a file of the tree. -/
theorem absIn_treePath (wd base : GoString) (hwd : wd ≠ [])
    (hbase : base = [] ∨ ∃ b, base = b ++ [47]) :
    ∃ abase : GoString, (abase = [] ∨ ∃ b, abase = b ++ [47]) ∧
      ∀ rel, isTreePath rel = true → absIn wd (base ++ rel) = abase ++ rel := by
  rcases hbase with hb | ⟨b, hb⟩
  · subst hb
    obtain ⟨abase, h1, h2⟩ := Clean_treePath wd
    refine ⟨abase, h1, ?_⟩
    intro rel hrel
    have hj : filepath.Join [wd, rel] = filepath.Clean (wd ++ 47 :: rel) := by
      simp [filepath.Join, hwd, List.intercalate, List.intersperse]
    simp only [List.nil_append, absIn, isTreePath_not_abs hrel, Bool.false_eq_true, if_false]
    rw [hj, h2 rel hrel]
  · subst hb
    by_cases habs : strings.HasPrefix (b ++ [47]) [47] = true
    · obtain ⟨abase, h1, h2⟩ := Clean_treePath b
      refine ⟨abase, h1, ?_⟩
      intro rel hrel
      have hisabs : filepath.IsAbs (b ++ [47] ++ rel) = true := by
        cases b <;> simp_all [filepath.IsAbs, strings.HasPrefix, List.isPrefixOf]
      simp only [absIn, hisabs, if_true]
      rw [← h2 rel hrel]
      simp
    · obtain ⟨abase, h1, h2⟩ := Clean_treePath (wd ++ 47 :: b)
      refine ⟨abase, h1, ?_⟩
      intro rel hrel
      have hisabs : filepath.IsAbs (b ++ [47] ++ rel) = false := by
        cases b <;> simp_all [filepath.IsAbs, strings.HasPrefix, List.isPrefixOf]
      have hj : filepath.Join [wd, b ++ [47] ++ rel] =
          filepath.Clean ((wd ++ 47 :: b) ++ 47 :: rel) := by
        simp [filepath.Join, hwd, List.intercalate, List.intersperse]
      simp only [absIn, hisabs, Bool.false_eq_true, if_false]
      rw [hj, h2 rel hrel]

/-! ## The file system under the walk -/

theorem entry_set_same (fs : FS) (a : GoString) (n : Node) : (fs.set a n).entry a = some n := by
  simp [FS.entry, FS.set, List.lookup]

theorem entry_set_other (fs : FS) (a k : GoString) (n : Node) (h : k ≠ a) :
    (fs.set a n).entry k = fs.entry k := by
  have hka : (k == a) = false := by simpa using h
  simp only [FS.entry, FS.set, List.lookup, hka]
  induction fs.nodes with
  | nil => simp
  | cons e es ih =>
    obtain ⟨x, v⟩ := e
    simp only [decide_not] at ih
    by_cases hx : x = a
    · subst hx
      simp [List.filter, List.lookup, hka, ih]
    · by_cases hk : k = x
      · subst hk
        simp [List.filter, List.lookup, hx]
      · have hkx : (k == x) = false := by simpa using hk
        simp [List.filter, List.lookup, hx, hkx, ih]

theorem fileAt_set_file (fs : FS) (a data : GoString) :
    (fs.set a (.file data)).fileAt a = some data := by
  simp [FS.fileAt, entry_set_same]

theorem fileAt_set_other (fs : FS) (a k : GoString) (n : Node) (h : k ≠ a) :
    (fs.set a n).fileAt k = fs.fileAt k := by
  simp [FS.fileAt, entry_set_other fs a k n h]

/-- Making directories keeps the working directory and every regular file. -/
theorem mkdirs_effect : ∀ (ds : List GoString) (fs fs1 : FS), fs.mkdirs ds = .ok fs1 →
    fs1.wd = fs.wd ∧ ∀ k, fs1.fileAt k = fs.fileAt k := by
  intro ds
  induction ds with
  | nil =>
    intro fs fs1 h
    simp [FS.mkdirs] at h
    subst h
    exact ⟨rfl, fun _ => rfl⟩
  | cons d ds ih =>
    intro fs fs1 h
    simp only [FS.mkdirs] at h
    split at h
    · cases h
    · exact ih fs fs1 h
    · rename_i hnone
      obtain ⟨h1, h2⟩ := ih _ fs1 h
      refine ⟨h1, ?_⟩
      intro k
      rw [h2 k]
      by_cases hk : k = d
      · subst hk
        simp only [FS.entry] at hnone
        simp [FS.fileAt, FS.entry, List.lookup, hnone]
      · have hkd : (k == d) = false := by simpa using hk
        simp [FS.fileAt, FS.entry, List.lookup, hkd]

theorem MkdirAll_effect (fs fs1 : FS) (p : GoString) (h : fs.MkdirAll p = .ok fs1) :
    fs1.wd = fs.wd ∧ ∀ k, fs1.fileAt k = fs.fileAt k := by
  unfold FS.MkdirAll at h
  split at h
  · cases h
  · exact mkdirs_effect _ fs fs1 h

/-- Creating a file keeps the working directory, leaves an empty regular file at the path
and touches no other regular file. -/
theorem Create_effect (fs fs1 : FS) (p : GoString) (h : fs.Create p = .ok fs1) :
    fs1.wd = fs.wd ∧ p ≠ [] ∧ fs1.fileAt (absIn fs.wd p) = some [] ∧
      ∀ k, k ≠ absIn fs.wd p → fs1.fileAt k = fs.fileAt k := by
  unfold FS.Create at h
  split at h
  · cases h
  rename_i hp
  split at h
  · cases h
  · split at h
    · cases h
      exact ⟨rfl, hp, fileAt_set_file _ _ _, fun k hk => fileAt_set_other _ _ _ _ hk⟩
    · cases h
    · cases h

/-- What one call of `renderTemplateFile` does when it succeeds: the working directory
stays, a regular file stands at the target, no regular file elsewhere is changed, and a
file that is not a marker file is copied when source and target are not the same file. -/
theorem renderTemplateFile_effect (tt : TextTemplate)
    (fs fs1 : FS) (tplPath outPath : GoString) (ctx : TemplateContext)
    (h : renderTemplateFile tt fs tplPath outPath ctx = .ok fs1) :
    fs1.wd = fs.wd ∧
    (∀ k, k ≠ absIn fs.wd (if strings.HasSuffix tplPath tplExt then
        outPath.take (outPath.length - 4) else outPath) → fs1.fileAt k = fs.fileAt k) ∧
    fs1.fileAt (absIn fs.wd (if strings.HasSuffix tplPath tplExt then
        outPath.take (outPath.length - 4) else outPath)) ≠ none ∧
    (strings.HasSuffix tplPath tplExt = false → absIn fs.wd tplPath ≠ absIn fs.wd outPath →
      fs.fileAt (absIn fs.wd tplPath) ≠ none ∧
      fs1.fileAt (absIn fs.wd outPath) = fs.fileAt (absIn fs.wd tplPath)) := by
  unfold renderTemplateFile at h
  cases hm : strings.HasSuffix tplPath tplExt with
  | true =>
    simp only [hm, if_true] at h ⊢
    split at h
    · cases h
    · cases h
    · split at h
      · cases h
      · split at h
        · cases h
        · split at h
          · cases h
          · rename_i fsa hmk
            split at h
            · cases h
            · rename_i fsb hcr
              split at h
              · cases h
              · cases h
                obtain ⟨w1, f1⟩ := MkdirAll_effect _ _ _ hmk
                obtain ⟨w2, _, _, f2⟩ := Create_effect _ _ _ hcr
                rw [w1] at w2 f2
                refine ⟨w2, ?_, ?_, ?_⟩
                · intro k hk
                  rw [w2, fileAt_set_other _ _ _ _ hk, f2 k hk, f1 k]
                · rw [w2, fileAt_set_file]
                  simp
                · intro hf
                  cases hf
  | false =>
    simp only [hm, Bool.false_eq_true, if_false] at h ⊢
    unfold copyFile at h
    split at h
    · cases h
    · split at h
      · cases h
      · rename_i fsa hmk
        split at h
        · cases h
        · rename_i fsb hcr
          obtain ⟨w1, f1⟩ := MkdirAll_effect _ _ _ hmk
          obtain ⟨w2, _, _, f2⟩ := Create_effect _ _ _ hcr
          rw [w1] at w2 f2
          split at h
          · rename_i data hsrc
            cases h
            refine ⟨w2, ?_, ?_, ?_⟩
            · intro k hk
              rw [w2, fileAt_set_other _ _ _ _ hk, f2 k hk, f1 k]
            · rw [w2, fileAt_set_file]
              simp
            · intro _ hne
              have hsrc2 : fsb.fileAt (absIn fs.wd tplPath) = some data := by
                unfold FS.stat at hsrc
                split at hsrc
                · cases hsrc
                · rw [w2] at hsrc
                  simp [FS.fileAt, hsrc]
              rw [f2 _ hne, f1] at hsrc2
              rw [w2, fileAt_set_file, hsrc2]
              simp
          · cases h
          · cases h

theorem renderTree_append (tt : TextTemplate)
    (templateRoot root : GoString) (ctx : TemplateContext) (xs ys : List GoString) :
    ∀ fs : FS, renderTree tt templateRoot root ctx fs (xs ++ ys) =
      match renderTree tt templateRoot root ctx fs xs with
      | .error e => .error e
      | .ok fs1 => renderTree tt templateRoot root ctx fs1 ys := by
  induction xs with
  | nil => intro fs; simp [renderTree]
  | cons x xs ih =>
    intro fs
    simp only [List.cons_append, renderTree]
    split
    · rfl
    · exact ih _

/-- The target of the walk for a file of the tree is the output path. -/
theorem renderTemplateFile_target (tt : TextTemplate) (fs fs1 : FS)
    (templateRoot root f : GoString) (ctx : TemplateContext)
    (h : renderTemplateFile tt fs (filepath.Join [templateRoot, f]) (filepath.Join [root, f])
      ctx = .ok fs1) :
    fs1.wd = fs.wd ∧
    (∀ k, k ≠ absIn fs.wd (outputPath templateRoot root f) → fs1.fileAt k = fs.fileAt k) ∧
    fs1.fileAt (absIn fs.wd (outputPath templateRoot root f)) ≠ none := by
  have eff := renderTemplateFile_effect tt fs fs1 _ _ ctx h
  exact ⟨eff.1, eff.2.1, eff.2.2.1⟩

/-- The walk keeps the working directory. -/
theorem renderTree_wd (tt : TextTemplate) (templateRoot root : GoString)
    (ctx : TemplateContext) :
    ∀ (files : List GoString) (fs fs2 : FS),
      renderTree tt templateRoot root ctx fs files = .ok fs2 → fs2.wd = fs.wd := by
  intro files
  induction files with
  | nil =>
    intro fs fs2 h
    simp [renderTree] at h
    rw [h]
  | cons f rest ih =>
    intro fs fs2 h
    simp only [renderTree] at h
    split at h
    · cases h
    · rename_i fs1 h1
      rw [ih fs1 fs2 h, (renderTemplateFile_target tt fs fs1 _ _ f ctx h1).1]

/-- After a successful walk a place that is the output of no file of the tree holds the
regular file it held before. -/
theorem renderTree_frame (tt : TextTemplate)
    (templateRoot root : GoString) (ctx : TemplateContext) (k : GoString) :
    ∀ (files : List GoString) (fs fs2 : FS),
      renderTree tt templateRoot root ctx fs files = .ok fs2 →
      (∀ f ∈ files, absIn fs.wd (outputPath templateRoot root f) ≠ k) →
      fs2.fileAt k = fs.fileAt k := by
  intro files
  induction files with
  | nil =>
    intro fs fs2 h _
    simp [renderTree] at h
    rw [h]
  | cons f rest ih =>
    intro fs fs2 h hk
    simp only [renderTree] at h
    split at h
    · cases h
    · rename_i fs1 h1
      obtain ⟨w1, e1, _⟩ := renderTemplateFile_target tt fs fs1 _ _ f ctx h1
      rw [ih fs1 fs2 h (fun g hg => by rw [w1]; exact hk g (by simp [hg])),
        e1 k (fun e => hk f (by simp) e.symm)]

/-- After a successful walk the regular files are those from before and one at the output
of each file of the tree, nothing else. -/
theorem renderTree_files (tt : TextTemplate)
    (templateRoot root : GoString) (ctx : TemplateContext) :
    ∀ (files : List GoString) (fs fs2 : FS),
      renderTree tt templateRoot root ctx fs files = .ok fs2 →
      ∀ k, fs2.fileAt k ≠ none ↔
        (fs.fileAt k ≠ none ∨
          ∃ f ∈ files, absIn fs.wd (outputPath templateRoot root f) = k) := by
  intro files
  induction files with
  | nil =>
    intro fs fs2 h k
    simp [renderTree] at h
    simp [h]
  | cons f rest ih =>
    intro fs fs2 h k
    simp only [renderTree] at h
    split at h
    · cases h
    · rename_i fs1 h1
      obtain ⟨w1, e1, e2⟩ := renderTemplateFile_target tt fs fs1 _ _ f ctx h1
      have hstep : fs1.fileAt k ≠ none ↔
          (fs.fileAt k ≠ none ∨ absIn fs.wd (outputPath templateRoot root f) = k) := by
        by_cases hk : k = absIn fs.wd (outputPath templateRoot root f)
        · subst hk
          constructor
          · intro _; exact Or.inr rfl
          · intro _; exact e2
        · rw [e1 k hk]
          constructor
          · intro h; exact Or.inl h
          · rintro (h | h)
            · exact h
            · exact absurd h.symm hk
      rw [ih fs1 fs2 h k, hstep, w1]
      simp only [List.mem_cons, exists_eq_or_imp]
      tauto

/-! ## Name clashes and the round trip of static files -/

theorem wellFormed_IsAbs {fs : FS} (h : fs.wellFormed = true) :
    filepath.IsAbs fs.wd = true := by
  simp only [FS.wellFormed, Bool.and_eq_true] at h
  exact h.1.1.1

theorem IsAbs_ne_nil {p : GoString} (h : filepath.IsAbs p = true) : p ≠ [] := by
  intro e
  subst e
  simp [filepath.IsAbs, strings.HasPrefix, List.isPrefixOf] at h

/-- The place of the output of a file of the tree: a fixed text in front of the relative
path without its `.tpl`, when what is left is still the relative path of a file. -/
theorem absIn_outputPath (wd templateRoot root : GoString) (hwd : wd ≠ [])
    (ht : templateRoot ≠ []) (ho : root ≠ []) :
    ∃ abase : GoString, ∀ rel, isTreePath rel = true → isTreePath (stripTpl rel) = true →
      absIn wd (outputPath templateRoot root rel) = abase ++ stripTpl rel := by
  obtain ⟨base, hb, hout⟩ := outputPath_treePath templateRoot root ht ho
  obtain ⟨abase, _, habs⟩ := absIn_treePath wd base hwd hb
  exact ⟨abase, fun rel h1 h2 => by rw [hout rel h1, habs _ h2]⟩

/-- C9, as stated, fails: `a.txt` and `a.txt.tpl` are two distinct files of a tree, one
plain and one marker file, and both are written to `out/a.txt`; after the walk the output
root holds one file, the rendered one. -/
theorem outputPath_clash_counterexample :
    utf8 "a.txt" ≠ utf8 "a.txt.tpl" ∧
    outputPath (utf8 "tpl/server") (utf8 "out") (utf8 "a.txt") = utf8 "out/a.txt" ∧
    outputPath (utf8 "tpl/server") (utf8 "out") (utf8 "a.txt.tpl") = utf8 "out/a.txt" ∧
    renderTree ⟨fun _ => none, fun text _ => .ok text⟩ (utf8 "tpl/server") (utf8 "out")
        ⟨utf8 "app", utf8 "m"⟩
        ⟨utf8 "/w", [(utf8 "/w", .dir), (utf8 "/w/tpl", .dir), (utf8 "/w/tpl/server", .dir),
          (utf8 "/w/tpl/server/a.txt", .file (utf8 "X")),
          (utf8 "/w/tpl/server/a.txt.tpl", .file (utf8 "Y"))]⟩
        [utf8 "a.txt", utf8 "a.txt.tpl"] =
      .ok ⟨utf8 "/w", [(utf8 "/w/out/a.txt", .file (utf8 "Y")), (utf8 "/w/out", .dir),
        (utf8 "/w", .dir), (utf8 "/w/tpl", .dir), (utf8 "/w/tpl/server", .dir), (utf8 "/w/tpl/server/a.txt", .file (utf8 "X")),
        (utf8 "/w/tpl/server/a.txt.tpl", .file (utf8 "Y"))]⟩ := by
  decide

/-- A clash between an output file and an output directory ends the walk: with the plain
file `a/b` and the marker file `a.tpl` the directory `out/a` is made first and creating the
file `out/a` fails; in the other order making the directory fails. A marker file named
`.tpl` has the output path `out/`, a directory. -/
theorem renderTree_directory_clash :
    renderTree ⟨fun _ => none, fun text _ => .ok text⟩ (utf8 "tpl/server") (utf8 "out")
        ⟨utf8 "app", utf8 "m"⟩
        ⟨utf8 "/w", [(utf8 "/w", .dir), (utf8 "/w/tpl", .dir), (utf8 "/w/tpl/server", .dir),
          (utf8 "/w/tpl/server/a", .dir), (utf8 "/w/tpl/server/a/b", .file (utf8 "X")),
          (utf8 "/w/tpl/server/a.tpl", .file (utf8 "Y"))]⟩
        [utf8 "a/b", utf8 "a.tpl"] = .error (.isDir (utf8 "out/a")) ∧
    renderTree ⟨fun _ => none, fun text _ => .ok text⟩ (utf8 "tpl/server") (utf8 "out")
        ⟨utf8 "app", utf8 "m"⟩
        ⟨utf8 "/w", [(utf8 "/w", .dir), (utf8 "/w/tpl", .dir), (utf8 "/w/tpl/server", .dir),
          (utf8 "/w/tpl/server/a", .dir), (utf8 "/w/tpl/server/a/b", .file (utf8 "X")),
          (utf8 "/w/tpl/server/a.tpl", .file (utf8 "Y"))]⟩
        [utf8 "a.tpl", utf8 "a/b"] = .error (.notDir (utf8 "/w/out/a")) ∧
    renderTree ⟨fun _ => none, fun text _ => .ok text⟩ (utf8 "tpl/server") (utf8 "out")
        ⟨utf8 "app", utf8 "m"⟩
        ⟨utf8 "/w", [(utf8 "/w", .dir), (utf8 "/w/tpl", .dir), (utf8 "/w/tpl/server", .dir),
          (utf8 "/w/tpl/server/.tpl", .file (utf8 "X"))]⟩
        [utf8 ".tpl"] = .error (.isDir (utf8 "out/")) := by
  decide

/-- C9, amended: the output of a marker file is its relative path without the trailing
`.tpl`, that of any other file its relative path, both under the output root. Two files of
a tree are written to the same place exactly when they are the same file or one is a plain
file and the other is that file's path followed by `.tpl`. In a tree without such a pair
the outputs are pairwise distinct places, and after a successful walk the regular files
are those from before and one at each output; so a marker file `m` and a plain file `p`
yield two output files when the walk succeeds, unless `m` is `p.tpl`. Files named `.tpl`,
`..tpl` and `...tpl`, whose output path is that of a directory, are set aside. -/
theorem outputPath_clash_iff (wd templateRoot root : GoString)
    (hwd : filepath.IsAbs wd = true) (ht : templateRoot ≠ []) (ho : root ≠ []) :
    (∀ r1 r2, isTreePath r1 = true → isTreePath r2 = true →
      isTreePath (stripTpl r1) = true → isTreePath (stripTpl r2) = true →
      (absIn wd (outputPath templateRoot root r1) = absIn wd (outputPath templateRoot root r2) ↔
        (r1 = r2 ∨ (r1 = r2 ++ tplExt ∧ strings.HasSuffix r2 tplExt = false) ∨
          (r2 = r1 ++ tplExt ∧ strings.HasSuffix r1 tplExt = false)))) ∧
    (∀ files : List GoString, files.Nodup →
      (∀ f ∈ files, isTreePath f = true ∧ isTreePath (stripTpl f) = true) →
      (∀ f ∈ files, strings.HasSuffix f tplExt = false → f ++ tplExt ∉ files) →
      (files.map fun f => absIn wd (outputPath templateRoot root f)).Nodup ∧
      ∀ tt ctx (fs fs2 : FS), fs.wellFormed = true → fs.wd = wd →
        renderTree tt templateRoot root ctx fs files = .ok fs2 →
        ∀ k, fs2.fileAt k ≠ none ↔
          (fs.fileAt k ≠ none ∨
            k ∈ files.map fun f => absIn wd (outputPath templateRoot root f))) ∧
    (∀ m p, isTreePath m = true → isTreePath p = true → isTreePath (stripTpl m) = true →
      strings.HasSuffix m tplExt = true → strings.HasSuffix p tplExt = false →
      (([m, p].map fun f => absIn wd (outputPath templateRoot root f)).Nodup ↔
        m ≠ p ++ tplExt)) := by
  obtain ⟨abase, habs⟩ := absIn_outputPath wd templateRoot root (IsAbs_ne_nil hwd) ht ho
  have hiff : ∀ r1 r2, isTreePath r1 = true → isTreePath r2 = true →
      isTreePath (stripTpl r1) = true → isTreePath (stripTpl r2) = true →
      (absIn wd (outputPath templateRoot root r1) = absIn wd (outputPath templateRoot root r2) ↔
        (r1 = r2 ∨ (r1 = r2 ++ tplExt ∧ strings.HasSuffix r2 tplExt = false) ∨
          (r2 = r1 ++ tplExt ∧ strings.HasSuffix r1 tplExt = false))) := by
    intro r1 r2 h1 h2 s1 s2
    rw [habs r1 h1 s1, habs r2 h2 s2, List.append_cancel_left_eq]
    exact strip_eq_iff r1 r2
  refine ⟨hiff, ?_, ?_⟩
  · intro files hnodup hfiles hpair
    refine ⟨?_, ?_⟩
    · refine List.Nodup.map_on ?_ hnodup
      intro x hx y hy hxy
      rcases (hiff x y (hfiles x hx).1 (hfiles y hy).1 (hfiles x hx).2 (hfiles y hy).2).mp hxy
        with h | ⟨h, hp⟩ | ⟨h, hp⟩
      · exact h
      · exact absurd (h ▸ hx) (hpair y hy hp)
      · exact absurd (h ▸ hy) (hpair x hx hp)
    · intro tt ctx fs fs2 _ hfs hok k
      rw [renderTree_files tt templateRoot root ctx files fs fs2 hok k, hfs]
      simp only [List.mem_map]
  · intro m p hm hp hsm hmm hpp
    have hsp : isTreePath (stripTpl p) = true := by
      simp only [stripTpl, hpp, Bool.false_eq_true, if_false]
      exact hp
    simp only [List.map_cons, List.map_nil, List.nodup_cons, List.mem_singleton,
      List.not_mem_nil, not_false_eq_true, List.nodup_nil, and_true]
    rw [hiff m p hm hp hsm hsp]
    constructor
    · intro h e
      exact h (Or.inr (Or.inl ⟨e, hpp⟩))
    · intro h e
      rcases e with e | ⟨e, _⟩ | ⟨_, e⟩
      · rw [e, hpp] at hmm; cases hmm
      · exact h e
      · rw [hmm] at e; cases e

/-- C9, amended, for the tree `main.go.tpl`, `README.md` rendered from `tpl/server` into
`out` in the working directory `/w`: two distinct output places. -/
theorem outputPath_clash_iff_witness :
    filepath.IsAbs (utf8 "/w") = true ∧ utf8 "tpl/server" ≠ [] ∧ utf8 "out" ≠ [] ∧
    ([utf8 "main.go.tpl", utf8 "README.md"].map fun f =>
      absIn (utf8 "/w") (outputPath (utf8 "tpl/server") (utf8 "out") f)).Nodup :=
  ⟨by decide, by decide, by decide,
    ((outputPath_clash_iff (utf8 "/w") (utf8 "tpl/server") (utf8 "out") (by decide) (by decide)
      (by decide)).2.2 (utf8 "main.go.tpl") (utf8 "README.md") (by decide) (by decide)
      (by decide) (by decide) (by decide)).mpr (by decide)⟩

theorem outputPath_plain (templateRoot root r : GoString) (ht : templateRoot ≠ [])
    (hr : isTreePath r = true) (hplain : strings.HasSuffix r tplExt = false) :
    strings.HasSuffix (filepath.Join [templateRoot, r]) tplExt = false ∧
    outputPath templateRoot root r = filepath.Join [root, r] := by
  obtain ⟨baseT, hbT, hT⟩ := Join_treePath templateRoot ht
  have hs : strings.HasSuffix (filepath.Join [templateRoot, r]) tplExt = false := by
    rw [hT r hr, HasSuffix_base baseT r hbT, hplain]
  exact ⟨hs, by simp [outputPath, hs]⟩

theorem Join_treePath_ne_nil (root r : GoString) (ho : root ≠ [])
    (hr : isTreePath r = true) : filepath.Join [root, r] ≠ [] := by
  obtain ⟨base, _, h⟩ := Join_treePath root ho
  rw [h r hr]
  intro e
  have := congrArg List.length e
  simp at this
  exact isTreePath_ne_nil hr this.2

/-- C10, as stated, fails twice. With `a.txt` and `a.txt.tpl` in the tree the walk succeeds
and `out/a.txt` holds the rendered bytes `Y`, not the bytes `X` of `a.txt`. With the
template root `/w/tpl/server` and the output root `tpl/server` in the working directory
`/w` the walk succeeds and `a.txt` is left empty: `copyFile` truncates the file it is about
to read. -/
theorem renderTree_copy_counterexample :
    (∃ fs2, renderTree ⟨fun _ => none, fun text _ => .ok text⟩ (utf8 "tpl/server") (utf8 "out")
        ⟨utf8 "app", utf8 "m"⟩
        ⟨utf8 "/w", [(utf8 "/w", .dir), (utf8 "/w/tpl", .dir), (utf8 "/w/tpl/server", .dir),
          (utf8 "/w/tpl/server/a.txt", .file (utf8 "X")),
          (utf8 "/w/tpl/server/a.txt.tpl", .file (utf8 "Y"))]⟩
        [utf8 "a.txt", utf8 "a.txt.tpl"] = .ok fs2 ∧
      fs2.read (filepath.Join [utf8 "out", utf8 "a.txt"]) = some (utf8 "Y")) ∧
    (∃ fs2, renderTree ⟨fun _ => none, fun text _ => .ok text⟩ (utf8 "/w/tpl/server")
        (utf8 "tpl/server") ⟨utf8 "app", utf8 "m"⟩
        ⟨utf8 "/w", [(utf8 "/w", .dir), (utf8 "/w/tpl", .dir), (utf8 "/w/tpl/server", .dir),
          (utf8 "/w/tpl/server/a.txt", .file (utf8 "X"))]⟩ [utf8 "a.txt"] = .ok fs2 ∧
      fs2.read (filepath.Join [utf8 "tpl/server", utf8 "a.txt"]) = some [] ∧
      fs2.read (filepath.Join [utf8 "/w/tpl/server", utf8 "a.txt"]) = some []) :=
  ⟨⟨⟨utf8 "/w", [(utf8 "/w/out/a.txt", .file (utf8 "Y")), (utf8 "/w/out", .dir),
      (utf8 "/w", .dir), (utf8 "/w/tpl", .dir), (utf8 "/w/tpl/server", .dir), (utf8 "/w/tpl/server/a.txt", .file (utf8 "X")),
      (utf8 "/w/tpl/server/a.txt.tpl", .file (utf8 "Y"))]⟩, by decide, by decide⟩,
    ⟨⟨utf8 "/w", [(utf8 "/w/tpl/server/a.txt", .file []), (utf8 "/w", .dir), (utf8 "/w/tpl", .dir), (utf8 "/w/tpl/server", .dir)]⟩,
      by decide, by decide, by decide⟩⟩

/-- C10, amended: in a well-formed file system, for every file of the template tree whose
name does not end in `.tpl`, after a successful walk the output root holds a file at the
same relative path with the bytes of the template file, and the template file still holds
them, provided the tree holds no marker file of the same path followed by `.tpl` and no
output of the walk is that template file itself, under whatever spelling of its path.
Files named `.tpl`, `..tpl` and `...tpl`, whose output path is that of a directory, are
set aside. -/
theorem renderTree_copies_static (tt : TextTemplate)
    (templateRoot root : GoString) (ctx : TemplateContext) (files : List GoString)
    (fs fs2 : FS) (r data : GoString)
    (hwf : fs.wellFormed = true) (ht : templateRoot ≠ []) (ho : root ≠ [])
    (hfiles : ∀ f ∈ files, isTreePath f = true ∧ isTreePath (stripTpl f) = true)
    (hnodup : files.Nodup)
    (hr : r ∈ files) (hplain : strings.HasSuffix r tplExt = false)
    (hdata : fs.read (filepath.Join [templateRoot, r]) = some data)
    (hmarker : r ++ tplExt ∉ files)
    (halias : ∀ f ∈ files, absIn fs.wd (outputPath templateRoot root f) ≠
      absIn fs.wd (filepath.Join [templateRoot, r]))
    (hok : renderTree tt templateRoot root ctx fs files = .ok fs2) :
    fs2.read (filepath.Join [root, r]) = some data ∧
    fs2.read (filepath.Join [templateRoot, r]) = some data := by
  have hwd := wellFormed_IsAbs hwf
  have hrt := (hfiles r hr).1
  obtain ⟨hsuf, hout⟩ := outputPath_plain templateRoot root r ht hrt hplain
  have hwd2 := renderTree_wd tt templateRoot root ctx files fs fs2 hok
  have hsrcne := Join_treePath_ne_nil templateRoot r ht hrt
  have hdstne := Join_treePath_ne_nil root r ho hrt
  have hdata2 : fs.fileAt (absIn fs.wd (filepath.Join [templateRoot, r])) = some data := by
    simpa [FS.read, hsrcne] using hdata
  suffices hmain : fs2.fileAt (absIn fs.wd (filepath.Join [root, r])) = some data ∧
      fs2.fileAt (absIn fs.wd (filepath.Join [templateRoot, r])) = some data by
    simpa [FS.read, hsrcne, hdstne, hwd2] using hmain
  obtain ⟨pre, post, hsplit⟩ := List.append_of_mem hr
  subst hsplit
  have hnd := List.nodup_append.mp hnodup
  have hrpost : r ∉ post := (List.nodup_cons.mp hnd.2.1).1
  rw [renderTree_append] at hok
  split at hok
  · cases hok
  rename_i fs1 hpre
  simp only [renderTree] at hok
  split at hok
  · cases hok
  rename_i fs1b hstep
  have w1 := renderTree_wd tt templateRoot root ctx pre fs fs1 hpre
  have hsrc1 : fs1.fileAt (absIn fs.wd (filepath.Join [templateRoot, r])) = some data := by
    rw [renderTree_frame tt templateRoot root ctx _ pre fs fs1 hpre
      (fun f hf => halias f (by simp [hf])), hdata2]
  have eff := renderTemplateFile_effect tt fs1 fs1b _ _ ctx hstep
  simp only [hsuf, Bool.false_eq_true, if_false, w1] at eff
  have hne : absIn fs.wd (filepath.Join [templateRoot, r]) ≠
      absIn fs.wd (filepath.Join [root, r]) := by
    intro e
    exact halias r hr (by rw [hout, e])
  have hdst1 : fs1b.fileAt (absIn fs.wd (filepath.Join [root, r])) = some data := by
    rw [(eff.2.2.2 trivial hne).2, hsrc1]
  have hsrc1b : fs1b.fileAt (absIn fs.wd (filepath.Join [templateRoot, r])) = some data := by
    rw [eff.2.1 _ hne, hsrc1]
  have w1b : fs1b.wd = fs.wd := eff.1
  have hclash := (outputPath_clash_iff fs.wd templateRoot root hwd ht ho).1
  constructor
  · rw [renderTree_frame tt templateRoot root ctx _ post fs1b fs2 hok ?_, hdst1]
    intro f hf e
    rw [w1b, ← hout] at e
    have hfmem : f ∈ pre ++ r :: post := by simp [hf]
    have hrs : isTreePath (stripTpl r) = true := (hfiles r hr).2
    rcases (hclash f r (hfiles f hfmem).1 hrt (hfiles f hfmem).2 hrs).mp e
      with h | ⟨h, _⟩ | ⟨h, _⟩
    · exact hrpost (h ▸ hf)
    · exact hmarker (h ▸ hfmem)
    · have : strings.HasSuffix r tplExt = true := by
        rw [h]
        unfold strings.HasSuffix
        exact List.isSuffixOf_iff_suffix.mpr (List.suffix_append _ _)
      rw [hplain] at this
      cases this
  · rw [renderTree_frame tt templateRoot root ctx _ post fs1b fs2 hok
      (fun f hf => by rw [w1b]; exact halias f (by simp [hf])), hsrc1b]

/-- C10, amended, for the tree `README.md`, `main.go.tpl` rendered from `tpl/server` into
`out` in the working directory `/w`: `out/README.md` holds the bytes of
`tpl/server/README.md`. -/
theorem renderTree_copies_static_witness :
    renderTree ⟨fun _ => none, fun text _ => .ok text⟩ (utf8 "tpl/server") (utf8 "out")
        ⟨utf8 "app", utf8 "m"⟩
        ⟨utf8 "/w", [(utf8 "/w", .dir), (utf8 "/w/tpl", .dir), (utf8 "/w/tpl/server", .dir),
          (utf8 "/w/tpl/server/README.md", .file (utf8 "hello")),
          (utf8 "/w/tpl/server/main.go.tpl", .file (utf8 "go"))]⟩
        [utf8 "README.md", utf8 "main.go.tpl"] =
      .ok ⟨utf8 "/w", [(utf8 "/w/out/main.go", .file (utf8 "go")),
        (utf8 "/w/out/README.md", .file (utf8 "hello")), (utf8 "/w/out", .dir),
        (utf8 "/w", .dir), (utf8 "/w/tpl", .dir), (utf8 "/w/tpl/server", .dir),
        (utf8 "/w/tpl/server/README.md", .file (utf8 "hello")),
        (utf8 "/w/tpl/server/main.go.tpl", .file (utf8 "go"))]⟩ ∧
    FS.read ⟨utf8 "/w", [(utf8 "/w/out/main.go", .file (utf8 "go")),
        (utf8 "/w/out/README.md", .file (utf8 "hello")), (utf8 "/w/out", .dir),
        (utf8 "/w", .dir), (utf8 "/w/tpl", .dir), (utf8 "/w/tpl/server", .dir),
        (utf8 "/w/tpl/server/README.md", .file (utf8 "hello")),
        (utf8 "/w/tpl/server/main.go.tpl", .file (utf8 "go"))]⟩
      (filepath.Join [utf8 "out", utf8 "README.md"]) = some (utf8 "hello") :=
  ⟨by decide,
    (renderTree_copies_static ⟨fun _ => none, fun text _ => .ok text⟩ (utf8 "tpl/server")
      (utf8 "out") ⟨utf8 "app", utf8 "m"⟩ [utf8 "README.md", utf8 "main.go.tpl"]
      ⟨utf8 "/w", [(utf8 "/w", .dir), (utf8 "/w/tpl", .dir), (utf8 "/w/tpl/server", .dir),
        (utf8 "/w/tpl/server/README.md", .file (utf8 "hello")),
        (utf8 "/w/tpl/server/main.go.tpl", .file (utf8 "go"))]⟩
      _ (utf8 "README.md") (utf8 "hello") (by decide) (by decide) (by decide) (by decide)
      (by decide) (by decide) (by decide) (by decide) (by decide) (by decide)
      (by decide)).1⟩

end Lokstra
